import Mathlib

/-!
Verification of the Iroha instruction-executor slice: asset Mint/Burn/Transfer,
NFT Register/Unregister/Transfer, the NftId parser, and the kura inspector
height arithmetic.  Definitions are translated from
crates/iroha_core/src/smartcontracts/isi/asset.rs,
crates/iroha_core/src/smartcontracts/isi/nft.rs,
crates/iroha_data_model/src/nft.rs and crates/iroha_kagami/src/kura.rs.
Helpers whose Rust source is not part of the slice (the Numeric type, the
world-state accessors asset_or_insert, increase/decrease_asset_total_amount,
forbid_minting, Name parsing) are modelled from the specification document, as
marked on each definition.
-/

/-- Domain identifier (a Name; its internal grammar is irrelevant here). -/
abbrev DomainId := String

/-- Account identifier, kept abstract as its textual form. -/
abbrev AccountId := String

/-- Asset-definition identifier, kept abstract as its textual form. -/
abbrev AssetDefinitionId := String

/-- AssetId is a pair of the definition id and the owning account id
(iroha_data_model asset.rs). -/
structure AssetId where
  definition : AssetDefinitionId
  account : AccountId
deriving DecidableEq, Repr

/-- Modelled from the spec: Numeric is a fixed-point decimal, value
mantissa / 10 ^ scale, with an unsigned mantissa in a wide integer range
(the iroha_numeric crate is not part of the source slice). -/
structure Numeric where
  mantissa : Nat
  scale : Nat
deriving DecidableEq, Repr

/-- Modelled from the spec: the upper bound of the mantissa range.  Checked
addition fails above it.  Its exact value is irrelevant to the claims. -/
def numericMax : Nat := 2 ^ 128 - 1

/-- Numeric::ZERO. -/
def Numeric.ZERO : Numeric := ⟨0, 0⟩

/-- Modelled from the spec: checked addition; align the scales, add the
mantissas, fail on overflow. -/
def Numeric.checked_add (a b : Numeric) : Option Numeric :=
  if a.mantissa * 10 ^ (max a.scale b.scale - a.scale)
      + b.mantissa * 10 ^ (max a.scale b.scale - b.scale) ≤ numericMax then
    some ⟨a.mantissa * 10 ^ (max a.scale b.scale - a.scale)
      + b.mantissa * 10 ^ (max a.scale b.scale - b.scale), max a.scale b.scale⟩
  else none

/-- Modelled from the spec: checked subtraction; align the scales, subtract
the mantissas, fail on underflow (negative results are not representable). -/
def Numeric.checked_sub (a b : Numeric) : Option Numeric :=
  if b.mantissa * 10 ^ (max a.scale b.scale - b.scale)
      ≤ a.mantissa * 10 ^ (max a.scale b.scale - a.scale) then
    some ⟨a.mantissa * 10 ^ (max a.scale b.scale - a.scale)
      - b.mantissa * 10 ^ (max a.scale b.scale - b.scale), max a.scale b.scale⟩
  else none

/-- Numeric::is_zero. -/
def Numeric.is_zero (a : Numeric) : Bool := a.mantissa == 0

/-- The rational number a Numeric denotes. -/
def Numeric.toRat (a : Numeric) : ℚ := (a.mantissa : ℚ) / 10 ^ a.scale

/-- NumericSpec (iroha_data_model): unconstrained, or a bound on the scale. -/
inductive NumericSpec where
  | unconstrained
  | fractional (scaleMax : Nat)
deriving DecidableEq, Repr

/-- NumericSpec::check: a value satisfies the spec iff its scale is at most
scale_max (when constrained). -/
def NumericSpec.check (s : NumericSpec) (n : Numeric) : Bool :=
  match s with
  | .unconstrained => true
  | .fractional scaleMax => decide (n.scale ≤ scaleMax)

section NumericLemmas

lemma Numeric.toRat_nonneg (a : Numeric) : 0 ≤ a.toRat := by
  unfold Numeric.toRat
  positivity

lemma Numeric.toRat_ZERO : Numeric.ZERO.toRat = 0 := by
  simp [Numeric.toRat, Numeric.ZERO]

lemma Numeric.is_zero_iff (a : Numeric) : a.is_zero = true ↔ a.toRat = 0 := by
  unfold Numeric.is_zero Numeric.toRat
  rw [beq_iff_eq, div_eq_zero_iff]
  constructor
  · intro h; left; exact_mod_cast h
  · rintro (h | h)
    · exact_mod_cast h
    · exact absurd h (by positivity)

lemma Numeric.toRat_pos_of_not_zero {a : Numeric} (h : a.is_zero = false) :
    0 < a.toRat := by
  rcases lt_or_eq_of_le a.toRat_nonneg with hlt | heq
  · exact hlt
  · exact absurd (a.is_zero_iff.mpr heq.symm) (by simp [h])

/-- Rescaling a mantissa to a larger scale does not change the denoted value. -/
lemma Numeric.rescale_toRat (m sa s : Nat) (h : sa ≤ s) :
    ((m * 10 ^ (s - sa) : ℕ) : ℚ) / 10 ^ s = (m : ℚ) / 10 ^ sa := by
  have hs : (10 : ℚ) ^ s = 10 ^ (s - sa) * 10 ^ sa := by
    rw [← pow_add]
    congr 1
    omega
  push_cast
  rw [hs, mul_comm (m : ℚ) (10 ^ (s - sa))]
  exact mul_div_mul_left _ _ (by positivity)

lemma Numeric.checked_add_toRat {a b c : Numeric} (h : a.checked_add b = some c) :
    c.toRat = a.toRat + b.toRat := by
  unfold Numeric.checked_add at h
  split at h
  · cases h
    unfold Numeric.toRat
    simp only
    push_cast
    rw [add_div]
    rw [← Numeric.rescale_toRat a.mantissa a.scale (max a.scale b.scale) (le_max_left _ _),
      ← Numeric.rescale_toRat b.mantissa b.scale (max a.scale b.scale) (le_max_right _ _)]
    push_cast
    ring
  · cases h

lemma Numeric.checked_sub_toRat {a b c : Numeric} (h : a.checked_sub b = some c) :
    c.toRat = a.toRat - b.toRat := by
  unfold Numeric.checked_sub at h
  split at h
  next hle =>
    cases h
    unfold Numeric.toRat
    simp only
    rw [Nat.cast_sub hle, sub_div]
    rw [Numeric.rescale_toRat a.mantissa a.scale (max a.scale b.scale) (le_max_left _ _),
      Numeric.rescale_toRat b.mantissa b.scale (max a.scale b.scale) (le_max_right _ _)]
  · cases h

/-- Checked subtraction fails exactly when the subtrahend is larger. -/
lemma Numeric.checked_sub_eq_none_iff (a b : Numeric) :
    a.checked_sub b = none ↔ a.toRat < b.toRat := by
  unfold Numeric.checked_sub
  have hra := Numeric.rescale_toRat a.mantissa a.scale (max a.scale b.scale) (le_max_left _ _)
  have hrb := Numeric.rescale_toRat b.mantissa b.scale (max a.scale b.scale) (le_max_right _ _)
  split
  next hle =>
    simp only [reduceCtorEq, false_iff, not_lt]
    unfold Numeric.toRat
    rw [← hra, ← hrb]
    apply div_le_div_of_nonneg_right _ (by positivity)
    exact_mod_cast hle
  next hle =>
    simp only [true_iff]
    unfold Numeric.toRat
    rw [← hra, ← hrb]
    apply (div_lt_div_iff_of_pos_right (by positivity)).mpr
    exact_mod_cast Nat.lt_of_not_le hle

lemma Numeric.checked_sub_is_zero_iff {a b c : Numeric} (h : a.checked_sub b = some c) :
    c.is_zero = true ↔ a.toRat = b.toRat := by
  rw [Numeric.is_zero_iff, Numeric.checked_sub_toRat h, sub_eq_zero]

end NumericLemmas

section AssocMap

variable {κ : Type} [DecidableEq κ] {β : Type}

/-- First-match lookup in an association list (the ordered maps of the world
state, keyed by entity id). -/
def alookup (k : κ) : List (κ × β) → Option β
  | [] => none
  | p :: l => if p.1 = k then some p.2 else alookup k l

/-- Overwrite the value stored at a key (used for in-place `*_mut` writes). -/
def aupd (k : κ) (v : β) (l : List (κ × β)) : List (κ × β) :=
  l.map fun p => if p.1 = k then (k, v) else p

/-- Remove the first entry with the given key (map `remove`). -/
def aerase (k : κ) : List (κ × β) → List (κ × β)
  | [] => []
  | p :: l => if p.1 = k then l else p :: aerase k l

/-- The keys of the map are distinct. -/
def NodupKeys (l : List (κ × β)) : Prop := (l.map Prod.fst).Nodup

@[simp] lemma alookup_nil (k : κ) : alookup k ([] : List (κ × β)) = none := rfl

@[simp] lemma alookup_cons (k : κ) (p : κ × β) (l : List (κ × β)) :
    alookup k (p :: l) = if p.1 = k then some p.2 else alookup k l := rfl

@[simp] lemma aupd_nil (k : κ) (v : β) : aupd k v ([] : List (κ × β)) = [] := rfl

@[simp] lemma aupd_cons (k : κ) (v : β) (p : κ × β) (l : List (κ × β)) :
    aupd k v (p :: l) = (if p.1 = k then (k, v) else p) :: aupd k v l := by
  by_cases h : p.1 = k <;> simp [aupd, h]

@[simp] lemma aerase_nil (k : κ) : aerase k ([] : List (κ × β)) = [] := rfl

@[simp] lemma aerase_cons (k : κ) (p : κ × β) (l : List (κ × β)) :
    aerase k (p :: l) = if p.1 = k then l else p :: aerase k l := rfl

@[simp] lemma NodupKeys_nil : NodupKeys ([] : List (κ × β)) := by
  simp [NodupKeys]

lemma alookup_eq_none_iff (k : κ) (l : List (κ × β)) :
    alookup k l = none ↔ k ∉ l.map Prod.fst := by
  induction l with
  | nil => simp
  | cons p l ih =>
    by_cases h : p.1 = k
    · subst h
      simp
    · have h' : k ≠ p.1 := fun hk => h hk.symm
      simp [h, h', ih]

lemma alookup_of_mem_nodup {l : List (κ × β)} {p : κ × β}
    (hn : NodupKeys l) (h : p ∈ l) : alookup p.1 l = some p.2 := by
  induction l with
  | nil => cases h
  | cons q l ih =>
    unfold NodupKeys at hn
    simp only [List.map_cons, List.nodup_cons] at hn
    rcases List.mem_cons.mp h with h | h
    · subst h
      simp
    · have hq : q.1 ≠ p.1 := by
        intro he
        exact hn.1 (he ▸ List.mem_map_of_mem Prod.fst h)
      simp [hq, ih hn.2 h]

lemma aupd_keys (k : κ) (v : β) (l : List (κ × β)) :
    (aupd k v l).map Prod.fst = l.map Prod.fst := by
  induction l with
  | nil => rfl
  | cons p l ih =>
    by_cases h : p.1 = k <;> simp [h, ih]

lemma aupd_of_not_mem {k : κ} {l : List (κ × β)} (v : β)
    (h : k ∉ l.map Prod.fst) : aupd k v l = l := by
  induction l with
  | nil => rfl
  | cons p l ih =>
    simp only [List.map_cons, List.mem_cons, not_or] at h
    have hp : p.1 ≠ k := fun he => h.1 he.symm
    simp [hp, ih h.2]

lemma aerase_keys_sublist (k : κ) (l : List (κ × β)) :
    List.Sublist ((aerase k l).map Prod.fst) (l.map Prod.fst) := by
  induction l with
  | nil => simp
  | cons p l ih =>
    by_cases h : p.1 = k
    · simpa [h] using List.sublist_cons_self _ _
    · simpa [h] using ih.cons₂ p.1

lemma NodupKeys.aupd {l : List (κ × β)} (hn : NodupKeys l) (k : κ) (v : β) :
    NodupKeys (aupd k v l) := by
  unfold NodupKeys
  rw [aupd_keys]
  exact hn

lemma NodupKeys.aerase {l : List (κ × β)} (hn : NodupKeys l) (k : κ) :
    NodupKeys (aerase k l) :=
  (aerase_keys_sublist k l).nodup hn

lemma NodupKeys.cons_fresh {l : List (κ × β)} (hn : NodupKeys l) {k : κ} (v : β)
    (hk : alookup k l = none) : NodupKeys ((k, v) :: l) := by
  unfold NodupKeys
  simp only [List.map_cons, List.nodup_cons]
  exact ⟨(alookup_eq_none_iff k l).mp hk, hn⟩

lemma NodupKeys.tail {p : κ × β} {l : List (κ × β)} (hn : NodupKeys (p :: l)) :
    NodupKeys l := by
  unfold NodupKeys at hn ⊢
  simp only [List.map_cons, List.nodup_cons] at hn
  exact hn.2

lemma alookup_aupd_self {k : κ} {l : List (κ × β)} (v : β)
    (h : (alookup k l).isSome = true) : alookup k (aupd k v l) = some v := by
  induction l with
  | nil => simp at h
  | cons p l ih =>
    by_cases hp : p.1 = k
    · simp [hp]
    · simp only [alookup_cons, hp, if_false] at h
      simp [hp, ih h]

lemma alookup_aupd_ne {k k' : κ} (hne : k' ≠ k) (v : β) (l : List (κ × β)) :
    alookup k' (aupd k v l) = alookup k' l := by
  induction l with
  | nil => rfl
  | cons p l ih =>
    by_cases hp : p.1 = k
    · subst hp
      simp [Ne.symm hne, ih]
    · by_cases hp' : p.1 = k' <;> simp [hp, hp', hne, ih]

lemma alookup_aerase_self {k : κ} {l : List (κ × β)} (hn : NodupKeys l) :
    alookup k (aerase k l) = none := by
  induction l with
  | nil => rfl
  | cons p l ih =>
    unfold NodupKeys at hn
    simp only [List.map_cons, List.nodup_cons] at hn
    by_cases hp : p.1 = k
    · subst hp
      simp only [aerase_cons, if_pos rfl]
      rw [alookup_eq_none_iff]
      exact hn.1
    · simp [hp, ih hn.2]

lemma alookup_aerase_ne {k k' : κ} (hne : k' ≠ k) (l : List (κ × β)) :
    alookup k' (aerase k l) = alookup k' l := by
  induction l with
  | nil => rfl
  | cons p l ih =>
    by_cases hp : p.1 = k
    · subst hp
      simp [Ne.symm hne]
    · by_cases hp' : p.1 = k' <;> simp [hp, hp', hne, ih]

/-- Weighted sum of the entries of an association list. -/
def asum (f : κ → β → ℚ) (l : List (κ × β)) : ℚ :=
  (l.map fun p => f p.1 p.2).sum

@[simp] lemma asum_nil (f : κ → β → ℚ) : asum f ([] : List (κ × β)) = 0 := rfl

@[simp] lemma asum_cons (f : κ → β → ℚ) (p : κ × β) (l : List (κ × β)) :
    asum f (p :: l) = f p.1 p.2 + asum f l := by
  simp [asum]

lemma asum_aupd {k : κ} {v0 : β} {l : List (κ × β)} (f : κ → β → ℚ) (v : β)
    (hk : alookup k l = some v0) (hn : NodupKeys l) :
    asum f (aupd k v l) + f k v0 = asum f l + f k v := by
  induction l with
  | nil => simp at hk
  | cons p l ih =>
    unfold NodupKeys at hn
    simp only [List.map_cons, List.nodup_cons] at hn
    by_cases hp : p.1 = k
    · subst hp
      have hv : p.2 = v0 := by simpa using hk
      subst hv
      rw [aupd_cons, if_pos rfl, aupd_of_not_mem v hn.1]
      simp only [asum_cons]
      ring
    · simp only [alookup_cons, hp, if_false] at hk
      rw [aupd_cons, if_neg hp]
      simp only [asum_cons]
      have := ih hk hn.2
      linarith

lemma asum_aerase {k : κ} {v0 : β} {l : List (κ × β)} (f : κ → β → ℚ)
    (hk : alookup k l = some v0) (hn : NodupKeys l) :
    asum f (aerase k l) + f k v0 = asum f l := by
  induction l with
  | nil => simp at hk
  | cons p l ih =>
    unfold NodupKeys at hn
    simp only [List.map_cons, List.nodup_cons] at hn
    by_cases hp : p.1 = k
    · subst hp
      have hv : p.2 = v0 := by simpa using hk
      subst hv
      rw [aerase_cons, if_pos rfl]
      simp only [asum_cons]
      ring
    · simp only [alookup_cons, hp, if_false] at hk
      simp only [aerase_cons, if_neg hp, asum_cons]
      have := ih hk hn.2
      linarith

lemma asum_eq_zero_of_forall {l : List (κ × β)} (f : κ → β → ℚ)
    (h : ∀ p ∈ l, f p.1 p.2 = 0) : asum f l = 0 := by
  induction l with
  | nil => rfl
  | cons p l ih =>
    simp only [asum_cons]
    rw [h p (List.mem_cons_self _ _), ih fun q hq => h q (List.mem_cons_of_mem _ hq)]
    ring

end AssocMap

/-- Mintability policy of an asset definition. -/
inductive Mintable where
  | infinitely
  | once
  | not
deriving DecidableEq, Repr

/-- NFT identifier: name and domain, printed name$domain
(iroha_data_model/src/nft.rs). -/
structure NftId where
  domain : DomainId
  name : String
deriving DecidableEq, Repr

/-- Metadata: ordered key-value store; value contents are irrelevant here. -/
abbrev Metadata := List (String × String)

/-- Non-fungible token record (iroha_data_model/src/nft.rs). -/
structure Nft where
  id : NftId
  content : Metadata
  ownedBy : AccountId
deriving DecidableEq, Repr

/-- Builder submitted to register an NFT (iroha_data_model/src/nft.rs). -/
structure NewNft where
  id : NftId
  content : Metadata
deriving DecidableEq, Repr

/-- NewNft::build (nft.rs, Registrable impl): the authority becomes the owner. -/
def NewNft.build (self : NewNft) (authority : AccountId) : Nft :=
  { id := self.id, content := self.content, ownedBy := authority }

/-- Asset definition record (iroha_data_model; built by
NewAssetDefinition::build in asset.rs lines 13-29). -/
structure AssetDefinition where
  id : AssetDefinitionId
  spec : NumericSpec
  mintable : Mintable
  logo : Option String
  metadata : Metadata
  ownedBy : AccountId
  totalQuantity : Numeric
deriving DecidableEq, Repr

/-- Builder submitted to register an asset definition. -/
structure NewAssetDefinition where
  id : AssetDefinitionId
  spec : NumericSpec
  mintable : Mintable
  logo : Option String
  metadata : Metadata
deriving DecidableEq, Repr

/-- NewAssetDefinition::build (asset.rs lines 13-29): owner is the authority,
total_quantity starts at zero. -/
def NewAssetDefinition.build (self : NewAssetDefinition) (authority : AccountId) :
    AssetDefinition :=
  { id := self.id, spec := self.spec, mintable := self.mintable, logo := self.logo,
    metadata := self.metadata, ownedBy := authority, totalQuantity := Numeric.ZERO }

/-- Domain events emitted by the executors modelled here. -/
inductive Event where
  | assetAdded (asset : AssetId) (amount : Numeric)
  | assetRemoved (asset : AssetId) (amount : Numeric)
  | mintabilityChanged (definition : AssetDefinitionId)
  | nftCreated (nft : Nft)
  | nftDeleted (id : NftId)
  | nftOwnerChanged (nft : NftId) (newOwner : AccountId)
deriving DecidableEq, Repr

/-- FindError (iroha_data_model query errors): uniform not-found kinds. -/
inductive FindError where
  | asset (id : AssetId)
  | assetDefinition (id : AssetDefinitionId)
  | account (id : AccountId)
  | domain (id : DomainId)
  | nft (id : NftId)
deriving DecidableEq, Repr

/-- MathError (iroha_data_model isi errors). -/
inductive MathError where
  | overflow
  | notEnoughQuantity
deriving DecidableEq, Repr

/-- MintabilityError (iroha_data_model isi errors). -/
inductive MintabilityError where
  | mintUnmintable
  | forbidMintOnMintable
deriving DecidableEq, Repr

/-- Instruction kind recorded inside a RepetitionError. -/
inductive InstructionType where
  | register
deriving DecidableEq, Repr

/-- Id payload of a RepetitionError. -/
inductive IdBox where
  | nftId (id : NftId)
  | assetDefinitionId (id : AssetDefinitionId)
deriving DecidableEq, Repr

/-- Executor error (iroha_data_model isi error::Error, restricted to the
variants the modelled instructions produce). -/
inductive Error where
  | find (e : FindError)
  | typeError (expected actual : NumericSpec)
  | mintability (e : MintabilityError)
  | math (e : MathError)
  | repetition (instruction : InstructionType) (id : IdBox)
  | invariantViolation (msg : String)
deriving DecidableEq, Repr

/-- The world state: the authoritative maps the modelled instructions touch.
Asset rows are stored as id-to-value since an Asset is exactly an id plus a
Numeric value. -/
structure World where
  domains : List DomainId
  accounts : List AccountId
  assetDefinitions : List (AssetDefinitionId × AssetDefinition)
  assets : List (AssetId × Numeric)
  nfts : List (NftId × Nft)
  events : List Event
deriving Repr

/-- World::asset_definition: lookup returning a uniform not-found error. -/
def World.asset_definition (w : World) (id : AssetDefinitionId) :
    Except Error AssetDefinition :=
  match alookup id w.assetDefinitions with
  | none => .error (.find (.assetDefinition id))
  | some d => .ok d

/-- Buffer events on the transaction-local queue (World::emit_events). -/
def World.emit_events (w : World) (es : List Event) : World :=
  { w with events := w.events ++ es }

@[simp] lemma World.emit_events_assets (w : World) (es : List Event) :
    (w.emit_events es).assets = w.assets := rfl

@[simp] lemma World.emit_events_assetDefinitions (w : World) (es : List Event) :
    (w.emit_events es).assetDefinitions = w.assetDefinitions := rfl

@[simp] lemma World.emit_events_nfts (w : World) (es : List Event) :
    (w.emit_events es).nfts = w.nfts := rfl

/-- Modelled from the spec: World::asset_or_insert (state/mod.rs is not part
of the source slice).  Verifies that the account and the asset definition
exist, inserts the default value when the row is absent, and returns the
current value of the row together with the updated world. -/
def World.asset_or_insert (w : World) (id : AssetId) (default : Numeric) :
    Except Error (World × Numeric) :=
  if id.account ∈ w.accounts then
    if (alookup id.definition w.assetDefinitions).isSome then
      match alookup id w.assets with
      | some v => .ok (w, v)
      | none => .ok ({ w with assets := (id, default) :: w.assets }, default)
    else .error (.find (.assetDefinition id.definition))
  else .error (.find (.account id.account))

/-- Modelled from the spec: World::increase_asset_total_amount — checked
addition on the definition total_quantity, error on overflow. -/
def World.increase_asset_total_amount (w : World) (defId : AssetDefinitionId)
    (delta : Numeric) : Except Error World :=
  match alookup defId w.assetDefinitions with
  | none => .error (.find (.assetDefinition defId))
  | some d =>
    match d.totalQuantity.checked_add delta with
    | none => .error (.math .overflow)
    | some t =>
      .ok { w with assetDefinitions := aupd defId { d with totalQuantity := t } w.assetDefinitions }

/-- Modelled from the spec: World::decrease_asset_total_amount — checked
subtraction on the definition total_quantity, error on underflow. -/
def World.decrease_asset_total_amount (w : World) (defId : AssetDefinitionId)
    (delta : Numeric) : Except Error World :=
  match alookup defId w.assetDefinitions with
  | none => .error (.find (.assetDefinition defId))
  | some d =>
    match d.totalQuantity.checked_sub delta with
    | none => .error (.math .notEnoughQuantity)
    | some t =>
      .ok { w with assetDefinitions := aupd defId { d with totalQuantity := t } w.assetDefinitions }

/-- assert_numeric_spec (asset.rs lines 206-219): the object must satisfy the
definition numeric spec, otherwise a TypeError mismatch. -/
def assert_numeric_spec (object : Numeric) (d : AssetDefinition) :
    Except Error Unit :=
  if d.spec.check object then .ok ()
  else .error (.typeError d.spec (.fractional object.scale))

/-- Modelled from the spec: forbid_minting
(smartcontracts/account/isi, not part of the slice) — flip the definition
mintable flag to Not; minting an already unmintable definition is an error. -/
def forbid_minting (d : AssetDefinition) : Except Error AssetDefinition :=
  if d.mintable = Mintable.not then .error (.mintability .forbidMintOnMintable)
  else .ok { d with mintable := Mintable.not }

/-- assert_can_mint (asset.rs lines 222-241): Infinitely proceeds, Not fails
with MintUnmintable, Once flips the stored definition to Not and emits
AssetDefinitionEvent::MintabilityChanged. -/
def assert_can_mint (d : AssetDefinition) (w : World) : Except Error World :=
  match d.mintable with
  | .infinitely => .ok w
  | .not => .error (.mintability .mintUnmintable)
  | .once =>
    match alookup d.id w.assetDefinitions with
    | none => .error (.find (.assetDefinition d.id))
    | some stored =>
      match forbid_minting stored with
      | .error e => .error e
      | .ok flipped =>
        .ok (({ w with assetDefinitions := aupd d.id flipped w.assetDefinitions }).emit_events [.mintabilityChanged d.id])

/-- Mint<Numeric, Asset>::execute (asset.rs lines 41-83).  The float push to
new_tx_amounts is metrics-only and not part of the chain state, so it is not
modelled. -/
def execMint (object : Numeric) (destination : AssetId) (w : World) :
    Except Error World :=
  match w.asset_definition destination.definition with
  | .error e => .error e
  | .ok d =>
    match assert_numeric_spec object d with
    | .error e => .error e
    | .ok _ =>
      match assert_can_mint d w with
      | .error e => .error e
      | .ok w1 =>
        match w1.asset_or_insert destination Numeric.ZERO with
        | .error e => .error e
        | .ok (w2, quantity) =>
          match quantity.checked_add object with
          | none => .error (.math .overflow)
          | some q =>
            match World.increase_asset_total_amount { w2 with assets := aupd destination q w2.assets } destination.definition object with
            | .error e => .error e
            | .ok w3 => .ok (w3.emit_events [.assetAdded destination object])

/-- Burn<Numeric, Asset>::execute (asset.rs lines 85-136): spec check, load
the row (NotFound when absent), checked subtraction (NotEnoughQuantity on
underflow), remove the row when it reaches zero, decrement total_quantity,
emit AssetEvent::Removed. -/
def execBurn (object : Numeric) (destination : AssetId) (w : World) :
    Except Error World :=
  match w.asset_definition destination.definition with
  | .error e => .error e
  | .ok d =>
    match assert_numeric_spec object d with
    | .error e => .error e
    | .ok _ =>
      match alookup destination w.assets with
      | none => .error (.find (.asset destination))
      | some v =>
        match v.checked_sub object with
        | none => .error (.math .notEnoughQuantity)
        | some q =>
          match World.decrease_asset_total_amount { w with assets := if q.is_zero then aerase destination (aupd destination q w.assets) else aupd destination q w.assets } destination.definition object with
          | .error e => .error e
          | .ok w2 => .ok (w2.emit_events [.assetRemoved destination object])

/-- Transfer<Asset, Numeric, Account>::execute (asset.rs lines 138-203):
debit the source row first (remove it at zero), then credit the
destination row of the same definition under the destination account;
total_quantity and mintability are never touched. -/
def execTransfer (source : AssetId) (object : Numeric)
    (destination : AccountId) (w : World) : Except Error World :=
  match w.asset_definition source.definition with
  | .error e => .error e
  | .ok d =>
    match assert_numeric_spec object d with
    | .error e => .error e
    | .ok _ =>
      match alookup source w.assets with
      | none => .error (.find (.asset source))
      | some v =>
        match v.checked_sub object with
        | none => .error (.math .notEnoughQuantity)
        | some q =>
          match World.asset_or_insert { w with assets := if q.is_zero then aerase source (aupd source q w.assets) else aupd source q w.assets } ⟨source.definition, destination⟩ Numeric.ZERO with
          | .error e => .error e
          | .ok (w2, dv) =>
            match dv.checked_add object with
            | none => .error (.math .overflow)
            | some dq =>
              .ok (({ w2 with assets := aupd ⟨source.definition, destination⟩ dq w2.assets }).emit_events [.assetRemoved source object, .assetAdded ⟨source.definition, destination⟩ object])

/-- Register<AssetDefinition>: uniqueness check modelled from the spec
(section 4.D.3; the asset-definition register executor is not part of the
slice), record built by NewAssetDefinition::build from asset.rs. -/
def execRegisterDefinition (newDef : NewAssetDefinition) (authority : AccountId)
    (w : World) : Except Error World :=
  if (alookup newDef.id w.assetDefinitions).isSome then
    .error (.repetition .register (.assetDefinitionId newDef.id))
  else
    .ok { w with assetDefinitions := (newDef.id, newDef.build authority) :: w.assetDefinitions }

/-- Result of an executor that may panic: the `expect` calls in nft.rs abort
the process instead of returning an error. -/
inductive RunResult where
  | ok (w : World)
  | err (e : Error)
  | panicked (msg : String)
deriving Repr

/-- Did the run abort the process? -/
def RunResult.isPanicked : RunResult → Bool
  | .panicked _ => true
  | _ => false

/-- The committed state: an error rolls the state transaction back, a panic
never commits anything observable. -/
def RunResult.state (w : World) : RunResult → World
  | .ok w' => w'
  | .err _ => w
  | .panicked _ => w

/-- Register<Nft>::execute (nft.rs lines 31-61): repetition check first, then
the domain lookup (which panics via expect when the domain is absent), then
insert and emit NftEvent::Created. -/
def execRegisterNft (object : NewNft) (authority : AccountId) (w : World) :
    RunResult :=
  if (alookup object.id w.nfts).isSome then
    .err (.repetition .register (.nftId object.id))
  else if object.id.domain ∈ w.domains then
    .ok (({ w with nfts := (object.id, object.build authority) :: w.nfts }).emit_events [.nftCreated (object.build authority)])
  else .panicked "INTERNAL BUG: missing domain of NFT to register"

/-- Unregister<Nft>::execute (nft.rs lines 63-88): remove the record
(NotFound when absent), then the domain lookup panics via expect when the
domain is absent, then emit NftEvent::Deleted. -/
def execUnregisterNft (id : NftId) (w : World) : RunResult :=
  match alookup id w.nfts with
  | none => .err (.find (.nft id))
  | some _ =>
    if id.domain ∈ w.domains then
      .ok (({ w with nfts := aerase id w.nfts }).emit_events [.nftDeleted id])
    else .panicked "INTERNAL BUG: missing domain of NFT to unregister"

/-- Transfer<Account, NftId, Account>::execute (nft.rs lines 144-178): both
accounts must exist, the NFT must exist, and the stored owner must equal the
source account (otherwise InvariantViolation); then the owner is replaced and
NftEvent::OwnerChanged emitted. -/
def execTransferNft (source : AccountId) (object : NftId)
    (destination : AccountId) (w : World) : Except Error World :=
  if source ∈ w.accounts then
    if destination ∈ w.accounts then
      match alookup object w.nfts with
      | none => .error (.find (.nft object))
      | some nft =>
        if nft.ownedBy = source then
          .ok (({ w with nfts := aupd object { nft with ownedBy := destination } w.nfts }).emit_events [.nftOwnerChanged object destination])
        else
          .error (.invariantViolation "source account does not own the NFT")
    else .error (.find (.account destination))
  else .error (.find (.account source))

/-- Parse failure (iroha_data_model ParseError). -/
structure ParseError where
  reason : String
deriving DecidableEq, Repr

/-- str::rsplit_once: split at the LAST occurrence of the separator,
returning the parts before and after it. -/
def rsplitOnce (c : Char) : List Char → Option (List Char × List Char)
  | [] => none
  | x :: xs =>
    match rsplitOnce c xs with
    | some (a, b) => some (x :: a, b)
    | none => if x = c then some ([], xs) else none

/-- Modelled from the spec: Name / DomainId component parsing (name.rs and
domain.rs are not part of the source slice); the spec only requires that
empty components be rejected. -/
def parseComponent (s : List Char) : Except ParseError String :=
  if s.isEmpty then .error ⟨"empty component"⟩ else .ok ⟨s⟩

/-- NftId::from_str (iroha_data_model/src/nft.rs lines 112-137): split at the
last dollar sign; missing separator and empty parts are parse errors. -/
def NftId.fromStr (s : String) : Except ParseError NftId :=
  match rsplitOnce '$' s.data with
  | none => .error ⟨"Non Fungible Asset ID should have format `name$domain`"⟩
  | some ([], _) => .error ⟨"Empty `name` part in `name$domain`"⟩
  | some (_, []) => .error ⟨"Empty `domain` part in `name$domain`"⟩
  | some (nameCandidate, domainCandidate) =>
    match parseComponent nameCandidate with
    | .error _ => .error ⟨"Failed to parse `name` part in `name$domain`"⟩
    | .ok name =>
      match parseComponent domainCandidate with
      | .error _ => .error ⟨"Failed to parse `domain` part in `name$domain`"⟩
      | .ok domainId => .ok ⟨domainId, name⟩

/-- Modulus of the 64-bit unsigned integers used by the kura inspector. -/
def u64Mod : Nat := 2 ^ 64

/-- Args::run height mapping (iroha_kagami/src/kura.rs lines 41-48): height 0
is rejected, height h maps to internal index h - 1. -/
def kuraFromHeight (height : Nat) : Except String Nat :=
  if height = 0 then
    .error "The genesis block has the height 1; the from height must not be 0"
  else .ok (height - 1)

/-- print_blockchain clamping (kura.rs lines 79-97): reject an empty store,
clamp the start to the last block, and truncate the count to the remaining
blocks.  The sum from_height + block_count is 64-bit machine addition, hence
the reduction modulo 2^64. -/
def kuraClamp (indexCount fromHeight blockCount : Nat) :
    Except String (Nat × Nat) :=
  if indexCount = 0 then .error "Index count is zero"
  else
    let f := if fromHeight ≥ indexCount then indexCount - 1 else fromHeight
    let c := if (f + blockCount) % u64Mod > indexCount then indexCount - f
      else blockCount
    .ok (f, c)

/-- The asset instructions of claim scope, dispatched like InstructionBox. -/
inductive Instr where
  | registerDefinition (newDef : NewAssetDefinition) (authority : AccountId)
  | mint (object : Numeric) (destination : AssetId)
  | burn (object : Numeric) (destination : AssetId)
  | transfer (source : AssetId) (object : Numeric) (destination : AccountId)

/-- Dispatch one asset instruction. -/
def execInstr : Instr → World → Except Error World
  | .registerDefinition newDef authority, w => execRegisterDefinition newDef authority w
  | .mint object destination, w => execMint object destination w
  | .burn object destination, w => execBurn object destination w
  | .transfer source object destination, w => execTransfer source object destination w

/-- Commit-or-rollback: a failing instruction leaves the state unchanged
(the state transaction discards the overlay). -/
def applyInstr (i : Instr) (w : World) : World :=
  match execInstr i w with
  | .ok w' => w'
  | .error _ => w

/-- A committed sequence of instructions: failed instructions roll back,
the rest of the block still commits. -/
def execSeq (prog : List Instr) (w : World) : World :=
  prog.foldl (fun acc i => applyInstr i acc) w

/-- Sum of asset values over the rows of one definition. -/
def defSum (d : AssetDefinitionId) (l : List (AssetId × Numeric)) : ℚ :=
  asum (fun k v => if k.definition = d then v.toRat else 0) l

/-- Structural well-formedness of the world maps: distinct keys, record ids
matching map keys, and every asset row referring to a registered
definition. -/
def WorldWF (w : World) : Prop :=
  NodupKeys w.assets ∧ NodupKeys w.assetDefinitions ∧
  (∀ p ∈ w.assetDefinitions, p.2.id = p.1) ∧
  (∀ p ∈ w.assets, (alookup p.1.definition w.assetDefinitions).isSome = true)

/-- The claimed invariant: every definition total_quantity equals the sum of
the asset values under that definition. -/
def QuantityInv (w : World) : Prop :=
  ∀ id d, alookup id w.assetDefinitions = some d →
    d.totalQuantity.toRat = defSum id w.assets

/-- Well-formedness plus the total-quantity invariant. -/
def WorldInv (w : World) : Prop := WorldWF w ∧ QuantityInv w

/-- The zero-materialization invariant: every stored row is positive. -/
def PosInv (w : World) : Prop :=
  ∀ id v, alookup id w.assets = some v → 0 < v.toRat

/-- An instruction whose moved amount is non-zero (Burn and Register are
unconstrained). -/
def Instr.positiveAmounts : Instr → Prop
  | .mint object _ => object.is_zero = false
  | .transfer _ object _ => object.is_zero = false
  | _ => True

/-- The balance an account holds in an asset, zero when the row is absent. -/
def balance (w : World) (id : AssetId) : ℚ :=
  ((alookup id w.assets).map Numeric.toRat).getD 0

section MapMembership

variable {κ : Type} [DecidableEq κ] {β : Type}

lemma mem_aupd {k : κ} {v : β} {l : List (κ × β)} {p : κ × β}
    (h : p ∈ aupd k v l) : p = (k, v) ∨ p ∈ l := by
  induction l with
  | nil => cases h
  | cons q l ih =>
    rw [aupd_cons] at h
    rcases List.mem_cons.mp h with h | h
    · by_cases hq : q.1 = k
      · rw [if_pos hq] at h
        exact Or.inl h
      · rw [if_neg hq] at h
        exact Or.inr (h ▸ List.mem_cons_self _ _)
    · rcases ih h with h | h
      · exact Or.inl h
      · exact Or.inr (List.mem_cons_of_mem _ h)

lemma mem_of_mem_aerase {k : κ} {l : List (κ × β)} {p : κ × β}
    (h : p ∈ aerase k l) : p ∈ l := by
  induction l with
  | nil => cases h
  | cons q l ih =>
    rw [aerase_cons] at h
    by_cases hq : q.1 = k
    · rw [if_pos hq] at h
      exact List.mem_cons_of_mem _ h
    · rw [if_neg hq] at h
      rcases List.mem_cons.mp h with h | h
      · exact h ▸ List.mem_cons_self _ _
      · exact List.mem_cons_of_mem _ (ih h)

end MapMembership

section OpInversion

lemma asset_definition_ok {w : World} {id : AssetDefinitionId} {d : AssetDefinition}
    (h : w.asset_definition id = .ok d) : alookup id w.assetDefinitions = some d := by
  unfold World.asset_definition at h
  split at h
  · simp at h
  · rename_i d0 hd0
    rw [Except.ok.injEq] at h
    subst h
    exact hd0

lemma increase_total_ok {w w' : World} {defId : AssetDefinitionId} {delta : Numeric}
    (h : w.increase_asset_total_amount defId delta = .ok w') :
    ∃ d t, alookup defId w.assetDefinitions = some d ∧
      d.totalQuantity.checked_add delta = some t ∧
      w' = { w with assetDefinitions := aupd defId { d with totalQuantity := t } w.assetDefinitions } := by
  unfold World.increase_asset_total_amount at h
  split at h
  · simp at h
  · rename_i d hd
    split at h
    · simp at h
    · rename_i t ht
      cases h
      exact ⟨d, t, hd, ht, rfl⟩

lemma decrease_total_ok {w w' : World} {defId : AssetDefinitionId} {delta : Numeric}
    (h : w.decrease_asset_total_amount defId delta = .ok w') :
    ∃ d t, alookup defId w.assetDefinitions = some d ∧
      d.totalQuantity.checked_sub delta = some t ∧
      w' = { w with assetDefinitions := aupd defId { d with totalQuantity := t } w.assetDefinitions } := by
  unfold World.decrease_asset_total_amount at h
  split at h
  · simp at h
  · rename_i d hd
    split at h
    · simp at h
    · rename_i t ht
      cases h
      exact ⟨d, t, hd, ht, rfl⟩

lemma asset_or_insert_ok {w w2 : World} {id : AssetId} {dft v : Numeric}
    (h : w.asset_or_insert id dft = .ok (w2, v)) :
    id.account ∈ w.accounts ∧
    (alookup id.definition w.assetDefinitions).isSome = true ∧
    w2.assetDefinitions = w.assetDefinitions ∧
    w2.accounts = w.accounts ∧
    w2.domains = w.domains ∧
    w2.nfts = w.nfts ∧
    w2.events = w.events ∧
    ((alookup id w.assets = some v ∧ w2.assets = w.assets) ∨
      (alookup id w.assets = none ∧ v = dft ∧ w2.assets = (id, dft) :: w.assets)) := by
  unfold World.asset_or_insert at h
  split at h
  next hacct =>
    split at h
    next hdef =>
      split at h
      · rename_i v0 hv0
        rw [Except.ok.injEq, Prod.mk.injEq] at h
        obtain ⟨hw, hv⟩ := h
        subst hw
        subst hv
        exact ⟨hacct, hdef, rfl, rfl, rfl, rfl, rfl, Or.inl ⟨hv0, rfl⟩⟩
      · rename_i hv0
        rw [Except.ok.injEq, Prod.mk.injEq] at h
        obtain ⟨hw, hv⟩ := h
        subst hw
        subst hv
        exact ⟨hacct, hdef, rfl, rfl, rfl, rfl, rfl, Or.inr ⟨hv0, rfl, rfl⟩⟩
    · simp at h
  · simp at h

lemma assert_numeric_spec_ok {object : Numeric} {d : AssetDefinition} {u : Unit}
    (h : assert_numeric_spec object d = .ok u) : d.spec.check object = true := by
  unfold assert_numeric_spec at h
  split at h
  · assumption
  · simp at h

lemma assert_can_mint_ok {d : AssetDefinition} {w w1 : World}
    (h : assert_can_mint d w = .ok w1) :
    (d.mintable = Mintable.infinitely ∧ w1 = w) ∨
    (d.mintable = Mintable.once ∧ ∃ stored,
      alookup d.id w.assetDefinitions = some stored ∧
      stored.mintable ≠ Mintable.not ∧
      w1 = ({ w with assetDefinitions := aupd d.id { stored with mintable := Mintable.not } w.assetDefinitions }).emit_events [.mintabilityChanged d.id]) := by
  unfold assert_can_mint at h
  split at h
  next hm =>
    cases h
    exact Or.inl ⟨hm, rfl⟩
  next hm => simp at h
  next hm =>
    split at h
    · simp at h
    · rename_i stored hstored
      split at h
      · simp at h
      · rename_i flipped hflip
        cases h
        unfold forbid_minting at hflip
        split at hflip
        · simp at hflip
        next hnot =>
          rw [Except.ok.injEq] at hflip
          subst hflip
          exact Or.inr ⟨hm, stored, hstored, hnot, rfl⟩

lemma execMint_ok {object : Numeric} {destination : AssetId} {w w' : World}
    (h : execMint object destination w = .ok w') :
    ∃ d w1 w2 v q w3,
      alookup destination.definition w.assetDefinitions = some d ∧
      d.spec.check object = true ∧
      assert_can_mint d w = .ok w1 ∧
      w1.asset_or_insert destination Numeric.ZERO = .ok (w2, v) ∧
      v.checked_add object = some q ∧
      World.increase_asset_total_amount { w2 with assets := aupd destination q w2.assets } destination.definition object = .ok w3 ∧
      w' = w3.emit_events [.assetAdded destination object] := by
  unfold execMint at h
  split at h
  · simp at h
  · rename_i d hd
    split at h
    · simp at h
    · rename_i u hspec
      split at h
      · simp at h
      · rename_i w1 hcan
        split at h
        · simp at h
        · rename_i w2 v hoi
          split at h
          · simp at h
          · rename_i q hq
            split at h
            · simp at h
            · rename_i w3 hinc
              cases h
              exact ⟨d, w1, w2, v, q, w3, asset_definition_ok hd, assert_numeric_spec_ok hspec, hcan, hoi, hq, hinc, rfl⟩

end OpInversion

lemma execBurn_ok {object : Numeric} {destination : AssetId} {w w' : World}
    (h : execBurn object destination w = .ok w') :
    ∃ d v q w2,
      alookup destination.definition w.assetDefinitions = some d ∧
      d.spec.check object = true ∧
      alookup destination w.assets = some v ∧
      v.checked_sub object = some q ∧
      World.decrease_asset_total_amount { w with assets := if q.is_zero then aerase destination (aupd destination q w.assets) else aupd destination q w.assets } destination.definition object = .ok w2 ∧
      w' = w2.emit_events [.assetRemoved destination object] := by
  unfold execBurn at h
  split at h
  · simp at h
  · rename_i d hd
    split at h
    · simp at h
    · rename_i u hspec
      split at h
      · simp at h
      · rename_i v hv
        split at h
        · simp at h
        · rename_i q hq
          split at h
          · simp at h
          · rename_i w2 hdec
            cases h
            exact ⟨d, v, q, w2, asset_definition_ok hd, assert_numeric_spec_ok hspec, hv, hq, hdec, rfl⟩

lemma execTransfer_ok {source : AssetId} {object : Numeric} {destination : AccountId}
    {w w' : World} (h : execTransfer source object destination w = .ok w') :
    ∃ d v q w2 dv dq,
      alookup source.definition w.assetDefinitions = some d ∧
      d.spec.check object = true ∧
      alookup source w.assets = some v ∧
      v.checked_sub object = some q ∧
      World.asset_or_insert { w with assets := if q.is_zero then aerase source (aupd source q w.assets) else aupd source q w.assets } ⟨source.definition, destination⟩ Numeric.ZERO = .ok (w2, dv) ∧
      dv.checked_add object = some dq ∧
      w' = ({ w2 with assets := aupd ⟨source.definition, destination⟩ dq w2.assets }).emit_events [.assetRemoved source object, .assetAdded ⟨source.definition, destination⟩ object] := by
  unfold execTransfer at h
  split at h
  · simp at h
  · rename_i d hd
    split at h
    · simp at h
    · rename_i u hspec
      split at h
      · simp at h
      · rename_i v hv
        split at h
        · simp at h
        · rename_i q hq
          split at h
          · simp at h
          · rename_i w2 dv hoi
            split at h
            · simp at h
            · rename_i dq hdq
              cases h
              exact ⟨d, v, q, w2, dv, dq, asset_definition_ok hd, assert_numeric_spec_ok hspec, hv, hq, hoi, hdq, rfl⟩

lemma execRegisterDefinition_ok {newDef : NewAssetDefinition} {authority : AccountId}
    {w w' : World} (h : execRegisterDefinition newDef authority w = .ok w') :
    alookup newDef.id w.assetDefinitions = none ∧
    w' = { w with assetDefinitions := (newDef.id, newDef.build authority) :: w.assetDefinitions } := by
  unfold execRegisterDefinition at h
  split at h
  · simp at h
  next hnone =>
    cases h
    rw [Option.not_isSome_iff_eq_none] at hnone
    exact ⟨hnone, rfl⟩

section InvPreservation

lemma mem_of_alookup {κ : Type} [DecidableEq κ] {β : Type} {k : κ} {v : β}
    {l : List (κ × β)} (h : alookup k l = some v) : (k, v) ∈ l := by
  induction l with
  | nil => simp at h
  | cons p l ih =>
    rw [alookup_cons] at h
    by_cases hp : p.1 = k
    · rw [if_pos hp, Option.some.injEq] at h
      subst hp
      subst h
      exact List.mem_cons_self _ _
    · rw [if_neg hp] at h
      exact List.mem_cons_of_mem _ (ih h)

lemma worldInv_register {newDef : NewAssetDefinition} {authority : AccountId}
    {w w' : World} (hI : WorldInv w)
    (h : execRegisterDefinition newDef authority w = .ok w') : WorldInv w' := by
  obtain ⟨⟨hna, hnd, hkc, hde⟩, hq⟩ := hI
  obtain ⟨hnone, hw'⟩ := execRegisterDefinition_ok h
  subst hw'
  refine ⟨⟨hna, hnd.cons_fresh _ hnone, ?_, ?_⟩, ?_⟩
  · intro p hp
    rcases List.mem_cons.mp hp with hp | hp
    · subst hp
      rfl
    · exact hkc p hp
  · intro p hp
    simp only [alookup_cons]
    by_cases hc : newDef.id = p.1.definition
    · rw [if_pos hc]
      rfl
    · rw [if_neg hc]
      exact hde p hp
  · intro k d hd
    simp only [alookup_cons] at hd
    by_cases hc : newDef.id = k
    · rw [if_pos hc, Option.some.injEq] at hd
      subst hd
      unfold NewAssetDefinition.build defSum
      rw [Numeric.toRat_ZERO]
      symm
      apply asum_eq_zero_of_forall
      intro p hp
      by_cases hc2 : p.1.definition = k
      · exfalso
        have := hde p hp
        rw [hc2, ← hc, hnone] at this
        simp at this
      · rw [if_neg hc2]
    · rw [if_neg hc] at hd
      exact hq k d hd

lemma worldInv_can_mint {d : AssetDefinition} {w w1 : World} (hI : WorldInv w)
    (h : assert_can_mint d w = .ok w1) :
    WorldInv w1 ∧ w1.assets = w.assets ∧ w1.accounts = w.accounts ∧
    (∀ k, (alookup k w1.assetDefinitions).isSome = (alookup k w.assetDefinitions).isSome) := by
  obtain ⟨⟨hna, hnd, hkc, hde⟩, hq⟩ := hI
  rcases assert_can_mint_ok h with ⟨_, hw1⟩ | ⟨_, stored, hstored, _, hw1⟩
  · subst hw1
    exact ⟨⟨⟨hna, hnd, hkc, hde⟩, hq⟩, rfl, rfl, fun k => rfl⟩
  · subst hw1
    have hsid : stored.id = d.id := hkc _ (mem_of_alookup hstored)
    have hsome : ∀ k, (alookup k (aupd d.id { stored with mintable := Mintable.not } w.assetDefinitions)).isSome = (alookup k w.assetDefinitions).isSome := by
      intro k
      by_cases hk : k = d.id
      · subst hk
        rw [alookup_aupd_self _ (by rw [hstored]; rfl), hstored]
        rfl
      · rw [alookup_aupd_ne hk]
    refine ⟨⟨⟨hna, hnd.aupd _ _, ?_, ?_⟩, ?_⟩, rfl, rfl, hsome⟩
    · intro p hp
      rcases mem_aupd hp with hp | hp
      · subst hp
        exact hsid
      · exact hkc p hp
    · intro p hp
      rw [World.emit_events_assetDefinitions]
      simp only
      rw [hsome p.1.definition]
      exact hde p hp
    · intro k dd hdd
      rw [World.emit_events_assetDefinitions] at hdd
      simp only at hdd
      by_cases hk : k = d.id
      · subst hk
        rw [alookup_aupd_self _ (by rw [hstored]; rfl), Option.some.injEq] at hdd
        subst hdd
        exact hq d.id stored hstored
      · rw [alookup_aupd_ne hk] at hdd
        exact hq k dd hdd

end InvPreservation

lemma defSum_aupd {k : AssetId} {v0 : Numeric} {l : List (AssetId × Numeric)}
    (d : AssetDefinitionId) (v : Numeric) (hk : alookup k l = some v0)
    (hn : NodupKeys l) :
    defSum d (aupd k v l) + (if k.definition = d then v0.toRat else 0)
      = defSum d l + (if k.definition = d then v.toRat else 0) := by
  have h := asum_aupd (fun (ki : AssetId) (x : Numeric) => if ki.definition = d then x.toRat else 0) v hk hn
  unfold defSum
  simpa using h

lemma defSum_aerase {k : AssetId} {v0 : Numeric} {l : List (AssetId × Numeric)}
    (d : AssetDefinitionId) (hk : alookup k l = some v0) (hn : NodupKeys l) :
    defSum d (aerase k l) + (if k.definition = d then v0.toRat else 0) = defSum d l := by
  have h := asum_aerase (fun (ki : AssetId) (x : Numeric) => if ki.definition = d then x.toRat else 0) hk hn
  unfold defSum
  simpa using h

lemma defSum_cons (d : AssetDefinitionId) (p : AssetId × Numeric)
    (l : List (AssetId × Numeric)) :
    defSum d (p :: l) = (if p.1.definition = d then p.2.toRat else 0) + defSum d l := by
  unfold defSum
  simp

lemma worldInv_or_insert {w w2 : World} {id : AssetId} {dft v : Numeric}
    (hI : WorldInv w) (h : w.asset_or_insert id dft = .ok (w2, v))
    (hdft : dft.toRat = 0) :
    WorldInv w2 ∧ alookup id w2.assets = some v ∧
    w2.assetDefinitions = w.assetDefinitions ∧
    (∀ k, defSum k w2.assets = defSum k w.assets) := by
  obtain ⟨⟨hna, hnd, hkc, hde⟩, hq⟩ := hI
  obtain ⟨hacct, hdef, hdefs, _, _, _, _, hcase⟩ := asset_or_insert_ok h
  rcases hcase with ⟨hv, hassets⟩ | ⟨hnone, hvd, hassets⟩
  · refine ⟨⟨⟨?_, ?_, ?_, ?_⟩, ?_⟩, ?_, hdefs, ?_⟩
    · rw [hassets]; exact hna
    · rw [hdefs]; exact hnd
    · rw [hdefs]; exact hkc
    · rw [hassets, hdefs]; exact hde
    · intro k d hd
      rw [hdefs] at hd
      rw [hassets]
      exact hq k d hd
    · rw [hassets]; exact hv
    · intro k
      rw [hassets]
  · subst hvd
    have hsum : ∀ k, defSum k w2.assets = defSum k w.assets := by
      intro k
      rw [hassets, defSum_cons]
      by_cases hk : id.definition = k
      · rw [if_pos hk, hdft]
        ring
      · rw [if_neg hk]
        ring
    refine ⟨⟨⟨?_, ?_, ?_, ?_⟩, ?_⟩, ?_, hdefs, hsum⟩
    · rw [hassets]
      exact hna.cons_fresh _ hnone
    · rw [hdefs]
      exact hnd
    · rw [hdefs]
      exact hkc
    · intro p hp
      rw [hassets] at hp
      rw [hdefs]
      rcases List.mem_cons.mp hp with hp | hp
      · subst hp
        exact hdef
      · exact hde p hp
    · intro k d hd
      rw [hdefs] at hd
      rw [hsum k]
      exact hq k d hd
    · rw [hassets, alookup_cons, if_pos rfl]

lemma worldInv_mint_credit {w2 w3 : World} {dst : AssetId} {v q object : Numeric}
    (hI : WorldInv w2) (hv : alookup dst w2.assets = some v)
    (hq : v.checked_add object = some q)
    (hinc : World.increase_asset_total_amount { w2 with assets := aupd dst q w2.assets } dst.definition object = .ok w3) :
    WorldInv w3 := by
  obtain ⟨⟨hna, hnd, hkc, hde⟩, hQ⟩ := hI
  obtain ⟨d, t, hd, ht, hw3⟩ := increase_total_ok hinc
  simp only at hd
  subst hw3
  have hdid : d.id = dst.definition := hkc _ (mem_of_alookup hd)
  have hsum : ∀ k, defSum k (aupd dst q w2.assets)
      = defSum k w2.assets + (if dst.definition = k then object.toRat else 0) := by
    intro k
    have hup := defSum_aupd k q hv hna
    rw [Numeric.checked_add_toRat hq] at hup
    by_cases hk : dst.definition = k
    · rw [if_pos hk] at hup ⊢
      rw [if_pos hk] at hup
      linarith
    · rw [if_neg hk] at hup ⊢
      rw [if_neg hk] at hup
      linarith
  refine ⟨⟨?_, ?_, ?_, ?_⟩, ?_⟩
  · simpa only using hna.aupd dst q
  · simpa only using hnd.aupd dst.definition _
  · intro p hp
    simp only at hp
    rcases mem_aupd hp with hp | hp
    · subst hp
      exact hdid
    · exact hkc p hp
  · intro p hp
    simp only at hp ⊢
    rcases mem_aupd hp with hp | hp
    · subst hp
      simp only
      rw [alookup_aupd_self _ (by rw [hd]; rfl)]
      rfl
    · by_cases hk : p.1.definition = dst.definition
      · rw [hk, alookup_aupd_self _ (by rw [hd]; rfl)]
        rfl
      · rw [alookup_aupd_ne hk]
        exact hde p hp
  · intro k dd hdd
    simp only at hdd ⊢
    by_cases hk : k = dst.definition
    · subst hk
      rw [alookup_aupd_self _ (by rw [hd]; rfl), Option.some.injEq] at hdd
      subst hdd
      simp only
      rw [hsum dst.definition, Numeric.checked_add_toRat ht, if_pos rfl]
      rw [hQ dst.definition d hd]
    · rw [alookup_aupd_ne hk] at hdd
      rw [hsum k, if_neg (fun hc => hk hc.symm)]
      rw [hQ k dd hdd]
      ring

/-- The debited asset map of Burn and Transfer: write the reduced value, and
remove the row when it reached zero. -/
lemma debit_sum {w : World} {dst : AssetId} {v q object : Numeric}
    (hna : NodupKeys w.assets) (hv : alookup dst w.assets = some v)
    (hq : v.checked_sub object = some q) (k : AssetDefinitionId) :
    defSum k (if q.is_zero then aerase dst (aupd dst q w.assets) else aupd dst q w.assets)
      = defSum k w.assets - (if dst.definition = k then object.toRat else 0) := by
  have hup := defSum_aupd k q hv hna
  have hqv : q.toRat = v.toRat - object.toRat := Numeric.checked_sub_toRat hq
  by_cases hz : q.is_zero
  · rw [if_pos hz]
    have hq0 : q.toRat = 0 := (Numeric.is_zero_iff q).mp hz
    have her := defSum_aerase k (alookup_aupd_self q (by rw [hv]; rfl)) (hna.aupd dst q)
    by_cases hk : dst.definition = k
    · simp only [if_pos hk] at hup her ⊢
      linarith
    · simp only [if_neg hk] at hup her ⊢
      linarith
  · rw [if_neg hz]
    by_cases hk : dst.definition = k
    · simp only [if_pos hk] at hup ⊢
      linarith
    · simp only [if_neg hk] at hup ⊢
      linarith

lemma debit_nodup {w : World} {dst : AssetId} {q : Numeric} (hna : NodupKeys w.assets) :
    NodupKeys (if q.is_zero then aerase dst (aupd dst q w.assets) else aupd dst q w.assets) := by
  by_cases hz : q.is_zero
  · rw [if_pos hz]
    exact (hna.aupd dst q).aerase dst
  · rw [if_neg hz]
    exact hna.aupd dst q

lemma debit_mem {w : World} {dst : AssetId} {q : Numeric} {p : AssetId × Numeric}
    (hp : p ∈ (if q.is_zero then aerase dst (aupd dst q w.assets) else aupd dst q w.assets)) :
    p = (dst, q) ∨ p ∈ w.assets := by
  by_cases hz : q.is_zero
  · rw [if_pos hz] at hp
    exact mem_aupd (mem_of_mem_aerase hp)
  · rw [if_neg hz] at hp
    exact mem_aupd hp

lemma worldInv_burn_debit {w w2 : World} {dst : AssetId} {v q object : Numeric}
    (hI : WorldInv w) (hv : alookup dst w.assets = some v)
    (hq : v.checked_sub object = some q)
    (hdec : World.decrease_asset_total_amount { w with assets := if q.is_zero then aerase dst (aupd dst q w.assets) else aupd dst q w.assets } dst.definition object = .ok w2) :
    WorldInv w2 := by
  obtain ⟨⟨hna, hnd, hkc, hde⟩, hQ⟩ := hI
  obtain ⟨d, t, hd, ht, hw2⟩ := decrease_total_ok hdec
  simp only at hd
  subst hw2
  have hdid : d.id = dst.definition := hkc _ (mem_of_alookup hd)
  refine ⟨⟨?_, ?_, ?_, ?_⟩, ?_⟩
  · simpa only using debit_nodup hna
  · simpa only using hnd.aupd dst.definition _
  · intro p hp
    simp only at hp
    rcases mem_aupd hp with hp | hp
    · subst hp
      exact hdid
    · exact hkc p hp
  · intro p hp
    simp only at hp ⊢
    rcases debit_mem hp with hp | hp
    · subst hp
      simp only
      rw [alookup_aupd_self _ (by rw [hd]; rfl)]
      rfl
    · by_cases hk : p.1.definition = dst.definition
      · rw [hk, alookup_aupd_self _ (by rw [hd]; rfl)]
        rfl
      · rw [alookup_aupd_ne hk]
        exact hde p hp
  · intro k dd hdd
    simp only at hdd ⊢
    by_cases hk : k = dst.definition
    · subst hk
      rw [alookup_aupd_self _ (by rw [hd]; rfl), Option.some.injEq] at hdd
      subst hdd
      simp only
      rw [debit_sum hna hv hq, Numeric.checked_sub_toRat ht, if_pos rfl]
      rw [hQ dst.definition d hd]
    · rw [alookup_aupd_ne hk] at hdd
      rw [debit_sum hna hv hq, if_neg (fun hc => hk hc.symm)]
      rw [hQ k dd hdd]
      ring

lemma worldInv_emit {w : World} {es : List Event} (hI : WorldInv w) :
    WorldInv (w.emit_events es) := hI

lemma worldInv_mint {object : Numeric} {destination : AssetId} {w w' : World}
    (hI : WorldInv w) (h : execMint object destination w = .ok w') : WorldInv w' := by
  obtain ⟨d, w1, w2, v, q, w3, hd, hspec, hcan, hoi, hq, hinc, hw'⟩ := execMint_ok h
  subst hw'
  obtain ⟨hI1, _, _, _⟩ := worldInv_can_mint hI hcan
  obtain ⟨hI2, hv, _, _⟩ := worldInv_or_insert hI1 hoi Numeric.toRat_ZERO
  exact worldInv_emit (worldInv_mint_credit hI2 hv hq hinc)

lemma worldInv_burn {object : Numeric} {destination : AssetId} {w w' : World}
    (hI : WorldInv w) (h : execBurn object destination w = .ok w') : WorldInv w' := by
  obtain ⟨d, v, q, w2, hd, hspec, hv, hq, hdec, hw'⟩ := execBurn_ok h
  subst hw'
  exact worldInv_emit (worldInv_burn_debit hI hv hq hdec)

lemma worldInv_transfer {source : AssetId} {object : Numeric} {destination : AccountId}
    {w w' : World} (hI : WorldInv w)
    (h : execTransfer source object destination w = .ok w') : WorldInv w' := by
  obtain ⟨⟨hna, hnd, hkc, hde⟩, hQ⟩ := hI
  obtain ⟨d, v, q, w2, dv, dq, hd, hspec, hv, hq, hoi, hdq, hw'⟩ := execTransfer_ok h
  subst hw'
  obtain ⟨hacct, hdef2, hdefs2, _, _, _, _, hcase⟩ := asset_or_insert_ok hoi
  simp only at hacct hdef2 hdefs2 hcase
  have hAsum := debit_sum hna hv hq
  have hAnodup : NodupKeys (if q.is_zero then aerase source (aupd source q w.assets) else aupd source q w.assets) := debit_nodup hna
  have halookup : alookup (⟨source.definition, destination⟩ : AssetId) w2.assets = some dv := by
    rcases hcase with ⟨hvdst, hassets⟩ | ⟨_, hvd, hassets⟩
    · rw [hassets]
      exact hvdst
    · subst hvd
      rw [hassets, alookup_cons, if_pos rfl]
  have hw2sum : ∀ k, defSum k w2.assets = defSum k (if q.is_zero then aerase source (aupd source q w.assets) else aupd source q w.assets) := by
    intro k
    rcases hcase with ⟨_, hassets⟩ | ⟨_, hvd, hassets⟩
    · rw [hassets]
    · rw [hassets, defSum_cons]
      simp only
      rw [Numeric.toRat_ZERO]
      by_cases hk : source.definition = k
      · rw [if_pos hk]
        ring
      · rw [if_neg hk]
        ring
  have hw2nodup : NodupKeys w2.assets := by
    rcases hcase with ⟨_, hassets⟩ | ⟨hnone, _, hassets⟩
    · rw [hassets]
      exact hAnodup
    · rw [hassets]
      exact hAnodup.cons_fresh _ hnone
  have hw2mem : ∀ p, p ∈ w2.assets →
      p = ((⟨source.definition, destination⟩ : AssetId), Numeric.ZERO) ∨ p = (source, q) ∨ p ∈ w.assets := by
    intro p hp
    rcases hcase with ⟨_, hassets⟩ | ⟨_, hvd, hassets⟩
    · rw [hassets] at hp
      rcases debit_mem hp with hp | hp
      · exact Or.inr (Or.inl hp)
      · exact Or.inr (Or.inr hp)
    · subst hvd
      rw [hassets] at hp
      rcases List.mem_cons.mp hp with hp | hp
      · exact Or.inl hp
      · rcases debit_mem hp with hp | hp
        · exact Or.inr (Or.inl hp)
        · exact Or.inr (Or.inr hp)
  have hFsum : ∀ k, defSum k (aupd (⟨source.definition, destination⟩ : AssetId) dq w2.assets) = defSum k w.assets := by
    intro k
    have hup := defSum_aupd k dq halookup hw2nodup
    simp only at hup
    rw [Numeric.checked_add_toRat hdq] at hup
    have hA := hAsum k
    have hW2 := hw2sum k
    by_cases hk : source.definition = k
    · simp only [if_pos hk] at hup hA ⊢
      have hdv0 : dv.toRat = dv.toRat := rfl
      linarith
    · simp only [if_neg hk] at hup hA
      linarith
  refine ⟨⟨?_, ?_, ?_, ?_⟩, ?_⟩
  · simpa only using hw2nodup.aupd _ dq
  · show NodupKeys w2.assetDefinitions
    rw [hdefs2]
    exact hnd
  · intro p hp
    rw [hdefs2] at hp
    exact hkc p hp
  · intro p hp
    rw [hdefs2]
    rcases mem_aupd hp with hp | hp
    · subst hp
      show (alookup source.definition w.assetDefinitions).isSome = true
      rw [hd]
      rfl
    · rcases hw2mem p hp with hp | hp | hp
      · subst hp
        show (alookup source.definition w.assetDefinitions).isSome = true
        rw [hd]
        rfl
      · subst hp
        show (alookup source.definition w.assetDefinitions).isSome = true
        rw [hd]
        rfl
      · exact hde p hp
  · intro k dd hdd
    rw [hdefs2] at hdd
    show dd.totalQuantity.toRat = defSum k (aupd (⟨source.definition, destination⟩ : AssetId) dq w2.assets)
    rw [hFsum k]
    exact hQ k dd hdd

lemma worldInv_applyInstr {w : World} (hI : WorldInv w) (i : Instr) :
    WorldInv (applyInstr i w) := by
  unfold applyInstr
  split
  · rename_i w' hok
    cases i with
    | registerDefinition newDef authority => exact worldInv_register hI hok
    | mint object destination => exact worldInv_mint hI hok
    | burn object destination => exact worldInv_burn hI hok
    | transfer source object destination => exact worldInv_transfer hI hok
  · exact hI

lemma worldInv_execSeq {w : World} (hI : WorldInv w) (prog : List Instr) :
    WorldInv (execSeq prog w) := by
  induction prog generalizing w with
  | nil => exact hI
  | cons i prog ih => exact ih (worldInv_applyInstr hI i)

lemma debit_alookup_ne {w : World} {dst id : AssetId} {q : Numeric} (hne : id ≠ dst) :
    alookup id (if q.is_zero then aerase dst (aupd dst q w.assets) else aupd dst q w.assets)
      = alookup id w.assets := by
  by_cases hz : q.is_zero
  · rw [if_pos hz, alookup_aerase_ne hne, alookup_aupd_ne hne]
  · rw [if_neg hz, alookup_aupd_ne hne]

lemma debit_alookup_self {w : World} {dst : AssetId} {v q : Numeric}
    (hna : NodupKeys w.assets) (hv : alookup dst w.assets = some v) :
    alookup dst (if q.is_zero then aerase dst (aupd dst q w.assets) else aupd dst q w.assets)
      = if q.is_zero then none else some q := by
  by_cases hz : q.is_zero
  · rw [if_pos hz, if_pos hz, alookup_aerase_self (hna.aupd dst q)]
  · rw [if_neg hz, if_neg hz, alookup_aupd_self q (by rw [hv]; rfl)]

lemma posInv_register {newDef : NewAssetDefinition} {authority : AccountId}
    {w w' : World} (hn : NodupKeys w.assets) (hP : PosInv w)
    (h : execRegisterDefinition newDef authority w = .ok w') :
    PosInv w' ∧ NodupKeys w'.assets := by
  obtain ⟨_, hw'⟩ := execRegisterDefinition_ok h
  subst hw'
  exact ⟨hP, hn⟩

lemma posInv_mint {object : Numeric} {destination : AssetId} {w w' : World}
    (hn : NodupKeys w.assets) (hP : PosInv w) (hobj : object.is_zero = false)
    (h : execMint object destination w = .ok w') :
    PosInv w' ∧ NodupKeys w'.assets := by
  obtain ⟨d, w1, w2, v, q, w3, hd, hspec, hcan, hoi, hq, hinc, hw'⟩ := execMint_ok h
  subst hw'
  have h1assets : w1.assets = w.assets := by
    rcases assert_can_mint_ok hcan with ⟨_, hw1⟩ | ⟨_, stored, _, _, hw1⟩ <;> subst hw1 <;> rfl
  obtain ⟨_, _, _, _, _, _, _, hcase⟩ := asset_or_insert_ok hoi
  rw [h1assets] at hcase
  have hvdst : alookup destination w2.assets = some v := by
    rcases hcase with ⟨hv, hassets⟩ | ⟨_, hvd, hassets⟩
    · rw [hassets, hv]
    · subst hvd
      rw [hassets, alookup_cons, if_pos rfl]
  have hw2n : NodupKeys w2.assets := by
    rcases hcase with ⟨_, hassets⟩ | ⟨hnone, _, hassets⟩
    · rw [hassets]; exact hn
    · rw [hassets]; exact hn.cons_fresh _ hnone
  have hw2P : ∀ id vv, id ≠ destination → alookup id w2.assets = some vv → 0 < vv.toRat := by
    intro id vv hne hvv
    rcases hcase with ⟨_, hassets⟩ | ⟨_, hvd, hassets⟩
    · rw [hassets] at hvv
      exact hP id vv hvv
    · subst hvd
      rw [hassets, alookup_cons, if_neg (fun hc => hne hc.symm)] at hvv
      exact hP id vv hvv
  obtain ⟨dd, t, _, _, hw3⟩ := increase_total_ok hinc
  subst hw3
  constructor
  · intro id vv hvv
    show 0 < vv.toRat
    have hvv2 : alookup id (aupd destination q w2.assets) = some vv := hvv
    clear hvv
    rename' hvv2 => hvv
    by_cases hid : id = destination
    · subst hid
      rw [alookup_aupd_self q (by rw [hvdst]; rfl), Option.some.injEq] at hvv
      subst hvv
      rw [Numeric.checked_add_toRat hq]
      have := Numeric.toRat_nonneg v
      have := Numeric.toRat_pos_of_not_zero hobj
      linarith
    · rw [alookup_aupd_ne hid] at hvv
      exact hw2P id vv hid hvv
  · show NodupKeys (aupd destination q w2.assets)
    exact hw2n.aupd destination q

lemma posInv_burn {object : Numeric} {destination : AssetId} {w w' : World}
    (hn : NodupKeys w.assets) (hP : PosInv w)
    (h : execBurn object destination w = .ok w') :
    PosInv w' ∧ NodupKeys w'.assets := by
  obtain ⟨d, v, q, w2, hd, hspec, hv, hq, hdec, hw'⟩ := execBurn_ok h
  subst hw'
  obtain ⟨dd, t, _, _, hw2⟩ := decrease_total_ok hdec
  subst hw2
  constructor
  · intro id vv hvv
    show 0 < vv.toRat
    have hvv2 : alookup id (if q.is_zero then aerase destination (aupd destination q w.assets) else aupd destination q w.assets) = some vv := hvv
    clear hvv
    rename' hvv2 => hvv
    by_cases hid : id = destination
    · subst hid
      rw [debit_alookup_self hn hv] at hvv
      by_cases hz : q.is_zero
      · rw [if_pos hz] at hvv
        simp at hvv
      · rw [if_neg hz, Option.some.injEq] at hvv
        subst hvv
        exact Numeric.toRat_pos_of_not_zero (by rw [← Bool.not_eq_true]; exact hz)
    · rw [debit_alookup_ne hid] at hvv
      exact hP id vv hvv
  · show NodupKeys (if q.is_zero then aerase destination (aupd destination q w.assets) else aupd destination q w.assets)
    exact debit_nodup hn

lemma posInv_transfer {source : AssetId} {object : Numeric} {destination : AccountId}
    {w w' : World} (hn : NodupKeys w.assets) (hP : PosInv w)
    (hobj : object.is_zero = false)
    (h : execTransfer source object destination w = .ok w') :
    PosInv w' ∧ NodupKeys w'.assets := by
  obtain ⟨d, v, q, w2, dv, dq, hd, hspec, hv, hq, hoi, hdq, hw'⟩ := execTransfer_ok h
  subst hw'
  obtain ⟨_, _, _, _, _, _, _, hcase⟩ := asset_or_insert_ok hoi
  simp only at hcase
  have hAnodup : NodupKeys (if q.is_zero then aerase source (aupd source q w.assets) else aupd source q w.assets) := debit_nodup hn
  have hvdst : alookup (⟨source.definition, destination⟩ : AssetId) w2.assets = some dv := by
    rcases hcase with ⟨hvd, hassets⟩ | ⟨_, hvd, hassets⟩
    · rw [hassets]
      exact hvd
    · subst hvd
      rw [hassets, alookup_cons, if_pos rfl]
  have hw2n : NodupKeys w2.assets := by
    rcases hcase with ⟨_, hassets⟩ | ⟨hnone, _, hassets⟩
    · rw [hassets]; exact hAnodup
    · rw [hassets]; exact hAnodup.cons_fresh _ hnone
  have hw2P : ∀ id vv, id ≠ (⟨source.definition, destination⟩ : AssetId) →
      alookup id w2.assets = some vv → 0 < vv.toRat := by
    intro id vv hne hvv
    have hvvA : alookup id (if q.is_zero then aerase source (aupd source q w.assets) else aupd source q w.assets) = some vv := by
      rcases hcase with ⟨_, hassets⟩ | ⟨_, hvd, hassets⟩
      · rw [hassets] at hvv
        exact hvv
      · rw [hassets, alookup_cons, if_neg (fun hc => hne hc.symm)] at hvv
        exact hvv
    by_cases hid : id = source
    · subst hid
      rw [debit_alookup_self hn hv] at hvvA
      by_cases hz : q.is_zero
      · rw [if_pos hz] at hvvA
        simp at hvvA
      · rw [if_neg hz, Option.some.injEq] at hvvA
        subst hvvA
        exact Numeric.toRat_pos_of_not_zero (by rw [← Bool.not_eq_true]; exact hz)
    · rw [debit_alookup_ne hid] at hvvA
      exact hP id vv hvvA
  constructor
  · intro id vv hvv
    show 0 < vv.toRat
    have hvv2 : alookup id (aupd (⟨source.definition, destination⟩ : AssetId) dq w2.assets) = some vv := hvv
    clear hvv
    rename' hvv2 => hvv
    by_cases hid : id = (⟨source.definition, destination⟩ : AssetId)
    · subst hid
      rw [alookup_aupd_self dq (by rw [hvdst]; rfl), Option.some.injEq] at hvv
      subst hvv
      rw [Numeric.checked_add_toRat hdq]
      have := Numeric.toRat_nonneg dv
      have := Numeric.toRat_pos_of_not_zero hobj
      linarith
    · rw [alookup_aupd_ne hid] at hvv
      exact hw2P id vv hid hvv
  · show NodupKeys (aupd (⟨source.definition, destination⟩ : AssetId) dq w2.assets)
    exact hw2n.aupd _ dq

lemma posInv_applyInstr {w : World} (hn : NodupKeys w.assets) (hP : PosInv w)
    {i : Instr} (hpos : i.positiveAmounts) :
    PosInv (applyInstr i w) ∧ NodupKeys (applyInstr i w).assets := by
  unfold applyInstr
  split
  · rename_i w' hok
    cases i with
    | registerDefinition newDef authority => exact posInv_register hn hP hok
    | mint object destination => exact posInv_mint hn hP hpos hok
    | burn object destination => exact posInv_burn hn hP hok
    | transfer source object destination => exact posInv_transfer hn hP hpos hok
  · exact ⟨hP, hn⟩

lemma posInv_execSeq {w : World} (hn : NodupKeys w.assets) (hP : PosInv w)
    {prog : List Instr} (hpos : ∀ i ∈ prog, i.positiveAmounts) :
    PosInv (execSeq prog w) := by
  induction prog generalizing w with
  | nil => exact hP
  | cons i prog ih =>
    obtain ⟨hP', hn'⟩ := posInv_applyInstr hn hP (hpos i (List.mem_cons_self _ _))
    exact ih hn' hP' fun j hj => hpos j (List.mem_cons_of_mem _ hj)

/-- A world with one domain and one account and no other entities, used as a
concrete starting state. -/
def startWorld : World :=
  { domains := ["wonderland"], accounts := ["alice", "bob"], assetDefinitions := [],
    assets := [], nfts := [], events := [] }

lemma worldInv_startWorld : WorldInv startWorld := by
  refine ⟨⟨?_, ?_, ?_, ?_⟩, ?_⟩ <;> simp [NodupKeys, startWorld, QuantityInv]

/-- C1: for every committed sequence of asset instructions starting from a
well-formed world, every asset definition total_quantity equals the sum of
the asset values under that definition; Mint raises both sides by the minted
amount, Burn lowers both, Transfer moves value without changing the sum, and
a freshly registered definition starts at total zero (the proof threads the
invariant through each executor). -/
theorem c1_total_quantity_invariant (w : World) (prog : List Instr)
    (h : WorldInv w) :
    ∀ id d, alookup id (execSeq prog w).assetDefinitions = some d →
      d.totalQuantity.toRat = defSum id (execSeq prog w).assets :=
  (worldInv_execSeq h prog).2

/-- Sample program for the C1 witness: register a definition, mint, transfer
part of it to another account, and burn the rest. -/
def c1Prog : List Instr :=
  [.registerDefinition ⟨"rose", .unconstrained, .infinitely, none, []⟩ "alice",
   .mint ⟨5, 0⟩ ⟨"rose", "alice"⟩,
   .transfer ⟨"rose", "alice"⟩ ⟨2, 0⟩ "bob",
   .burn ⟨3, 0⟩ ⟨"rose", "alice"⟩]

theorem c1_total_quantity_invariant_witness :
    WorldInv startWorld ∧
    (∀ id d, alookup id (execSeq c1Prog startWorld).assetDefinitions = some d →
      d.totalQuantity.toRat = defSum id (execSeq c1Prog startWorld).assets) :=
  ⟨worldInv_startWorld,
   c1_total_quantity_invariant startWorld c1Prog worldInv_startWorld⟩

/-- The world of the C2 counterexample: one account and one infinitely
mintable definition with empty numeric spec constraint. -/
def c2World : World :=
  { domains := [], accounts := ["alice"],
    assetDefinitions := [("coin", { id := "coin", spec := .unconstrained, mintable := .infinitely, logo := none, metadata := [], ownedBy := "alice", totalQuantity := Numeric.ZERO })],
    assets := [], nfts := [], events := [] }

/-- The state after minting zero coins to the absent row coin/alice. -/
def c2WorldAfter : World :=
  { domains := [], accounts := ["alice"],
    assetDefinitions := [("coin", { id := "coin", spec := .unconstrained, mintable := .infinitely, logo := none, metadata := [], ownedBy := "alice", totalQuantity := Numeric.ZERO })],
    assets := [(⟨"coin", "alice"⟩, Numeric.ZERO)], nfts := [],
    events := [.assetAdded ⟨"coin", "alice"⟩ Numeric.ZERO] }

/-- C2 counterexample: Mint of amount zero into an absent asset id succeeds
and materializes a row whose value is zero, so the claimed invariant
`value > 0 for every present row` is false after that instruction. -/
theorem c2_zero_rows_counterexample :
    execMint Numeric.ZERO ⟨"coin", "alice"⟩ c2World = .ok c2WorldAfter ∧
    alookup (⟨"coin", "alice"⟩ : AssetId) c2WorldAfter.assets = some Numeric.ZERO ∧
    ¬ 0 < Numeric.ZERO.toRat := by
  refine ⟨by rfl, by rfl, ?_⟩
  rw [Numeric.toRat_ZERO]
  exact lt_irrefl 0

/-- C2 amended: after every successful asset instruction every present row
has value strictly greater than zero, provided every Mint and Transfer in
the sequence moves a non-zero amount; Mint of amount zero into an absent
asset id (and Transfer of amount zero to an account without a row) instead
materializes a zero-valued row. -/
theorem c2_positive_rows_amended (w : World) (prog : List Instr)
    (hn : NodupKeys w.assets) (hP : PosInv w)
    (hpos : ∀ i ∈ prog, i.positiveAmounts) :
    PosInv (execSeq prog w) :=
  posInv_execSeq hn hP hpos

theorem c2_positive_rows_amended_witness :
    NodupKeys startWorld.assets ∧ PosInv startWorld ∧
    (∀ i ∈ c1Prog, i.positiveAmounts) ∧ PosInv (execSeq c1Prog startWorld) := by
  refine ⟨?_, ?_, ?_, ?_⟩
  · simp [NodupKeys, startWorld]
  · intro id v hv
    simp [startWorld] at hv
  · intro i hi
    simp only [c1Prog, List.mem_cons] at hi
    rcases hi with h | h | h | h | h
    all_goals first
      | (subst h; simp [Instr.positiveAmounts, Numeric.is_zero])
      | cases h
  · exact c2_positive_rows_amended startWorld c1Prog
      (by simp [NodupKeys, startWorld])
      (by intro id v hv; simp [startWorld] at hv)
      (by intro i hi
          simp only [c1Prog, List.mem_cons] at hi
          rcases hi with h | h | h | h | h
          all_goals first
            | (subst h; simp [Instr.positiveAmounts, Numeric.is_zero])
            | cases h)

section MintOnce

lemma assert_can_mint_not {dfn : AssetDefinition} {w : World}
    (hnot : dfn.mintable = Mintable.not) :
    assert_can_mint dfn w = .error (.mintability .mintUnmintable) := by
  unfold assert_can_mint
  rw [hnot]

lemma asset_definition_eval {w : World} {id : AssetDefinitionId} {d : AssetDefinition}
    (hd : alookup id w.assetDefinitions = some d) :
    w.asset_definition id = .ok d := by
  unfold World.asset_definition
  rw [hd]

lemma assert_numeric_spec_eval {object : Numeric} {d : AssetDefinition}
    (hspec : d.spec.check object = true) :
    assert_numeric_spec object d = .ok () := by
  unfold assert_numeric_spec
  simp [hspec]

/-- Any spec-passing Mint on a definition stored as non-mintable fails with
MintUnmintable. -/
lemma execMint_unmintable {w2 : World} {d2 : AssetDefinition} {object2 : Numeric}
    {destination2 : AssetId}
    (hd : alookup destination2.definition w2.assetDefinitions = some d2)
    (hnot : d2.mintable = Mintable.not) (hsp : d2.spec.check object2 = true) :
    execMint object2 destination2 w2 = .error (.mintability .mintUnmintable) := by
  unfold execMint
  rw [asset_definition_eval hd]
  simp only [assert_numeric_spec_eval hsp, assert_can_mint_not hnot]

lemma assert_can_mint_once {dfn : AssetDefinition} {w : World}
    (honce : dfn.mintable = Mintable.once)
    (hst : alookup dfn.id w.assetDefinitions = some dfn) :
    assert_can_mint dfn w = .ok (({ w with assetDefinitions := aupd dfn.id { dfn with mintable := Mintable.not } w.assetDefinitions }).emit_events [.mintabilityChanged dfn.id]) := by
  unfold assert_can_mint
  rw [honce]
  simp only [hst]
  unfold forbid_minting
  rw [if_neg (by rw [honce]; simp)]

lemma asset_or_insert_eval {w : World} {id : AssetId}
    (hacct : id.account ∈ w.accounts)
    (hdef : (alookup id.definition w.assetDefinitions).isSome = true) :
    w.asset_or_insert id Numeric.ZERO = .ok (match alookup id w.assets with
      | some v => (w, v)
      | none => ({ w with assets := (id, Numeric.ZERO) :: w.assets }, Numeric.ZERO)) := by
  unfold World.asset_or_insert
  rw [if_pos hacct, if_pos hdef]
  cases alookup id w.assets <;> rfl

lemma increase_eval {w : World} {defId : AssetDefinitionId} {delta : Numeric}
    {d : AssetDefinition} {t : Numeric}
    (hd : alookup defId w.assetDefinitions = some d)
    (ht : d.totalQuantity.checked_add delta = some t) :
    w.increase_asset_total_amount defId delta = .ok { w with assetDefinitions := aupd defId { d with totalQuantity := t } w.assetDefinitions } := by
  unfold World.increase_asset_total_amount
  simp only [hd, ht]

end MintOnce

/-- Forward evaluation of a successful Mint from the success of each step. -/
lemma execMint_eval {w w1 w2 w3 : World} {dfn : AssetDefinition} {object : Numeric}
    {destination : AssetId} {v q : Numeric}
    (hd : alookup destination.definition w.assetDefinitions = some dfn)
    (hspec : dfn.spec.check object = true)
    (hcan : assert_can_mint dfn w = .ok w1)
    (hoi : w1.asset_or_insert destination Numeric.ZERO = .ok (w2, v))
    (hq : v.checked_add object = some q)
    (hinc : World.increase_asset_total_amount { w2 with assets := aupd destination q w2.assets } destination.definition object = .ok w3) :
    execMint object destination w = .ok (w3.emit_events [.assetAdded destination object]) := by
  unfold execMint
  rw [asset_definition_eval hd]
  simp only [assert_numeric_spec_eval hspec, hcan, hoi, hq, hinc]

/-- The behaviour claimed for a Once-mintable Mint: success, flip to Not,
MintabilityChanged event, every later spec-passing Mint on the definition
failing MintUnmintable, and any Mint on a Not definition failing. -/
def MintOnceSpec (w : World) (dfn : AssetDefinition) (object : Numeric)
    (destination : AssetId) : Prop :=
  (∃ w' d', execMint object destination w = .ok w' ∧
    alookup destination.definition w'.assetDefinitions = some d' ∧
    d'.mintable = Mintable.not ∧ d'.spec = dfn.spec ∧
    Event.mintabilityChanged destination.definition ∈ w'.events ∧
    (∀ object2 destination2, destination2.definition = destination.definition →
      d'.spec.check object2 = true →
      execMint object2 destination2 w' = .error (.mintability .mintUnmintable))) ∧
  (∀ (w2 : World) (d2 : AssetDefinition) (object2 : Numeric) (destination2 : AssetId),
    alookup destination2.definition w2.assetDefinitions = some d2 →
    d2.mintable = Mintable.not → d2.spec.check object2 = true →
    execMint object2 destination2 w2 = .error (.mintability .mintUnmintable))

/-- C3: on a definition with mintable = Once, a spec-passing Mint (whose
checked additions do not overflow) succeeds, flips the stored definition to
Not within the same instruction, and emits MintabilityChanged; afterwards
every spec-passing Mint on that definition fails with MintUnmintable, as
does any spec-passing Mint on a definition stored with mintable = Not. -/
theorem c3_mint_once (w : World) (dfn : AssetDefinition) (object : Numeric)
    (destination : AssetId)
    (hd : alookup destination.definition w.assetDefinitions = some dfn)
    (hid : dfn.id = destination.definition)
    (honce : dfn.mintable = Mintable.once)
    (hspec : dfn.spec.check object = true)
    (hacct : destination.account ∈ w.accounts)
    (hqe : ∃ q, ((alookup destination w.assets).getD Numeric.ZERO).checked_add object = some q)
    (hte : ∃ t, dfn.totalQuantity.checked_add object = some t) :
    MintOnceSpec w dfn object destination := by
  unfold MintOnceSpec
  obtain ⟨q, hq⟩ := hqe
  obtain ⟨t, ht⟩ := hte
  refine ⟨?_, fun w2 d2 object2 destination2 h1 h2 h3 => execMint_unmintable h1 h2 h3⟩
  have hst : alookup dfn.id w.assetDefinitions = some dfn := by rw [hid]; exact hd
  set F : AssetDefinition := { dfn with mintable := Mintable.not }
  set W1 : World := ({ w with assetDefinitions := aupd dfn.id F w.assetDefinitions }).emit_events [.mintabilityChanged dfn.id]
  have hcan : assert_can_mint dfn w = .ok W1 := assert_can_mint_once honce hst
  have hflip : alookup destination.definition (aupd dfn.id F w.assetDefinitions) = some F := by
    rw [← hid]
    exact alookup_aupd_self _ (by rw [hst]; rfl)
  have hW1defs : (alookup destination.definition W1.assetDefinitions).isSome = true :=
    show (alookup destination.definition (aupd dfn.id F w.assetDefinitions)).isSome = true
      by rw [hflip]; rfl
  have hoi := asset_or_insert_eval (show destination.account ∈ W1.accounts from hacct) hW1defs
  cases hrow : alookup destination w.assets with
  | some v =>
    have hrow1 : alookup destination W1.assets = some v := hrow
    rw [hrow1] at hoi
    have hq1 : v.checked_add object = some q := by rw [hrow] at hq; exact hq
    have hinc := increase_eval
      (show alookup destination.definition ({ W1 with assets := aupd destination q W1.assets } : World).assetDefinitions = some F from hflip)
      (show F.totalQuantity.checked_add object = some t from ht)
    have hexec := execMint_eval hd hspec hcan hoi hq1 hinc
    refine ⟨_, { F with totalQuantity := t }, hexec, ?_, rfl, rfl, ?_, ?_⟩
    · show alookup destination.definition (aupd destination.definition { F with totalQuantity := t } ({ W1 with assets := aupd destination q W1.assets } : World).assetDefinitions) = some { F with totalQuantity := t }
      exact alookup_aupd_self _ (by rw [show alookup destination.definition ({ W1 with assets := aupd destination q W1.assets } : World).assetDefinitions = some F from hflip]; rfl)
    · show Event.mintabilityChanged destination.definition ∈ (w.events ++ [Event.mintabilityChanged dfn.id]) ++ [Event.assetAdded destination object]
      rw [hid]
      exact List.mem_append_left _ (List.mem_append_right _ (List.mem_singleton.mpr rfl))
    · intro object2 destination2 hdd hsp2
      apply execMint_unmintable _ rfl hsp2
      rw [hdd]
      show alookup destination.definition (aupd destination.definition { F with totalQuantity := t } ({ W1 with assets := aupd destination q W1.assets } : World).assetDefinitions) = some { F with totalQuantity := t }
      exact alookup_aupd_self _ (by rw [show alookup destination.definition ({ W1 with assets := aupd destination q W1.assets } : World).assetDefinitions = some F from hflip]; rfl)
  | none =>
    have hrow1 : alookup destination W1.assets = none := hrow
    rw [hrow1] at hoi
    have hq1 : Numeric.ZERO.checked_add object = some q := by rw [hrow] at hq; exact hq
    have hinc := increase_eval
      (show alookup destination.definition ({ { W1 with assets := (destination, Numeric.ZERO) :: W1.assets } with assets := aupd destination q ({ W1 with assets := (destination, Numeric.ZERO) :: W1.assets } : World).assets } : World).assetDefinitions = some F from hflip)
      (show F.totalQuantity.checked_add object = some t from ht)
    have hexec := execMint_eval hd hspec hcan hoi hq1 hinc
    refine ⟨_, { F with totalQuantity := t }, hexec, ?_, rfl, rfl, ?_, ?_⟩
    · show alookup destination.definition (aupd destination.definition { F with totalQuantity := t } (aupd dfn.id F w.assetDefinitions)) = some { F with totalQuantity := t }
      exact alookup_aupd_self _ (by rw [hflip]; rfl)
    · show Event.mintabilityChanged destination.definition ∈ (w.events ++ [Event.mintabilityChanged dfn.id]) ++ [Event.assetAdded destination object]
      rw [hid]
      exact List.mem_append_left _ (List.mem_append_right _ (List.mem_singleton.mpr rfl))
    · intro object2 destination2 hdd hsp2
      apply execMint_unmintable _ rfl hsp2
      rw [hdd]
      show alookup destination.definition (aupd destination.definition { F with totalQuantity := t } (aupd dfn.id F w.assetDefinitions)) = some { F with totalQuantity := t }
      exact alookup_aupd_self _ (by rw [hflip]; rfl)

/-- The Once-mintable definition of the C3 witness. -/
def c3Def : AssetDefinition :=
  { id := "gold", spec := .unconstrained, mintable := .once, logo := none,
    metadata := [], ownedBy := "alice", totalQuantity := Numeric.ZERO }

/-- The world of the C3 witness. -/
def c3World : World :=
  { domains := [], accounts := ["alice"], assetDefinitions := [("gold", c3Def)],
    assets := [], nfts := [], events := [] }

theorem c3_mint_once_witness :
    alookup (AssetId.definition ⟨"gold", "alice"⟩) c3World.assetDefinitions = some c3Def ∧
    c3Def.mintable = Mintable.once ∧
    c3Def.spec.check ⟨7, 0⟩ = true ∧
    MintOnceSpec c3World c3Def ⟨7, 0⟩ ⟨"gold", "alice"⟩ := by
  refine ⟨rfl, rfl, rfl, ?_⟩
  exact c3_mint_once c3World c3Def ⟨7, 0⟩ ⟨"gold", "alice"⟩ rfl rfl rfl rfl
    (by simp [c3World]) ⟨⟨7, 0⟩, by decide⟩ ⟨⟨7, 0⟩, by decide⟩

section TransferMintability

/-- Replace the mintable flag of a definition record. -/
def AssetDefinition.withMintable (d : AssetDefinition) (m : Mintable) : AssetDefinition :=
  { d with mintable := m }

/-- Replace the mintable flag of one stored definition, leaving everything
else in place. -/
def World.setMintable (w : World) (defId : AssetDefinitionId) (m : Mintable) : World :=
  { w with assetDefinitions := w.assetDefinitions.map fun p => if p.1 = defId then (p.1, p.2.withMintable m) else p }

lemma alookup_mapval {κ : Type} [DecidableEq κ] {β : Type} (k defId : κ)
    (f : β → β) (l : List (κ × β)) :
    alookup k (l.map fun p => if p.1 = defId then (p.1, f p.2) else p)
      = if k = defId then (alookup k l).map f else alookup k l := by
  induction l with
  | nil => by_cases hk : k = defId <;> simp [hk]
  | cons p l ih =>
    simp only [List.map_cons, alookup_cons]
    by_cases hp : p.1 = defId
    · rw [if_pos hp]
      by_cases hk : p.1 = k
      · have hkd : k = defId := hk ▸ hp
        simp [hk, hkd]
      · simp only [alookup_cons, hk, if_neg hk, if_false]
        rw [ih]
    · rw [if_neg hp]
      by_cases hk : p.1 = k
      · have hkd : ¬ k = defId := fun hc => hp (hk.trans hc)
        simp [alookup_cons, hk, hkd]
      · simp only [alookup_cons, if_neg hk]
        rw [ih]

lemma setMintable_alookup (w : World) (defId : AssetDefinitionId) (m : Mintable)
    (k : AssetDefinitionId) :
    alookup k (w.setMintable defId m).assetDefinitions
      = if k = defId then (alookup k w.assetDefinitions).map (fun d => d.withMintable m) else alookup k w.assetDefinitions := by
  unfold World.setMintable
  show alookup k (w.assetDefinitions.map fun p => if p.1 = defId then (p.1, p.2.withMintable m) else p) = _
  exact alookup_mapval k defId (fun d => d.withMintable m) w.assetDefinitions

lemma setMintable_or_insert (w : World) (id : AssetId) (dft : Numeric)
    (defId : AssetDefinitionId) (m : Mintable) :
    (w.setMintable defId m).asset_or_insert id dft
      = (w.asset_or_insert id dft).map (fun pr => (pr.1.setMintable defId m, pr.2)) := by
  unfold World.asset_or_insert
  have hacc : (w.setMintable defId m).accounts = w.accounts := rfl
  have hass : (w.setMintable defId m).assets = w.assets := rfl
  rw [hacc, hass]
  have hlk : (alookup id.definition (w.setMintable defId m).assetDefinitions).isSome
      = (alookup id.definition w.assetDefinitions).isSome := by
    rw [setMintable_alookup]
    by_cases hk : id.definition = defId
    · rw [if_pos hk]
      cases alookup id.definition w.assetDefinitions <;> rfl
    · rw [if_neg hk]
  rw [hlk]
  by_cases hacct : id.account ∈ w.accounts
  · rw [if_pos hacct, if_pos hacct]
    by_cases hdef : (alookup id.definition w.assetDefinitions).isSome = true
    · rw [if_pos hdef, if_pos hdef]
      cases alookup id w.assets <;> rfl
    · rw [if_neg hdef, if_neg hdef]
      rfl
  · rw [if_neg hacct, if_neg hacct]
    rfl

/-- Transfer never reads the mintable flag: changing it on the transferred
definition commutes with the execution. -/
lemma execTransfer_setMintable (w : World) (source : AssetId) (object : Numeric)
    (destination : AccountId) (m : Mintable) :
    execTransfer source object destination (w.setMintable source.definition m)
      = (execTransfer source object destination w).map
          (fun u => u.setMintable source.definition m) := by
  unfold execTransfer
  have had : (w.setMintable source.definition m).asset_definition source.definition
      = (w.asset_definition source.definition).map (fun d => d.withMintable m) := by
    unfold World.asset_definition
    rw [setMintable_alookup, if_pos rfl]
    cases alookup source.definition w.assetDefinitions <;> rfl
  have hspecEq : ∀ d : AssetDefinition, assert_numeric_spec object (d.withMintable m) = assert_numeric_spec object d := fun d => rfl
  have hass : (w.setMintable source.definition m).assets = w.assets := rfl
  rw [had]
  cases hd : w.asset_definition source.definition with
  | error e => simp only [Except.map]
  | ok d =>
    cases hs : assert_numeric_spec object d with
    | error e => simp only [Except.map, hspecEq, hass, hs]
    | ok u =>
      cases hv : alookup source w.assets with
      | none => simp only [Except.map, hspecEq, hass, hs, hv]
      | some v =>
        cases hq : v.checked_sub object with
        | none => simp only [Except.map, hspecEq, hass, hs, hv, hq]
        | some q =>
          have hcomm : ({ w.setMintable source.definition m with assets := if q.is_zero then aerase source (aupd source q w.assets) else aupd source q w.assets } : World)
              = ({ w with assets := if q.is_zero then aerase source (aupd source q w.assets) else aupd source q w.assets } : World).setMintable source.definition m := rfl
          cases hoi : World.asset_or_insert { w with assets := if q.is_zero then aerase source (aupd source q w.assets) else aupd source q w.assets } ⟨source.definition, destination⟩ Numeric.ZERO with
          | error e =>
            simp only [Except.map, hspecEq, hass, hs, hv, hq, hcomm, setMintable_or_insert, hoi]
          | ok pr =>
            obtain ⟨w2, dv⟩ := pr
            cases hdq : dv.checked_add object with
            | none =>
              simp only [Except.map, hspecEq, hass, hs, hv, hq, hcomm, setMintable_or_insert, hoi, hdq]
            | some dq =>
              simp only [Except.map, hspecEq, hass, hs, hv, hq, hcomm, setMintable_or_insert, hoi, hdq]
              rfl

end TransferMintability

lemma balance_eq_of_lookup {w : World} {id : AssetId} {v : Numeric}
    (h : alookup id w.assets = some v) : balance w id = v.toRat := by
  unfold balance
  rw [h]
  rfl

lemma balance_eq_zero_of_none {w : World} {id : AssetId}
    (h : alookup id w.assets = none) : balance w id = 0 := by
  unfold balance
  rw [h]
  rfl

/-- The behaviour claimed for a fungible Transfer: conservation of the pair
of balances and of the stored definitions (hence of total_quantity), source
debited first so that a self-transfer is a balance no-op, mintability never
consulted, and NotEnoughQuantity on insufficient source balance. -/
def TransferSpec (w : World) (source : AssetId) (object : Numeric)
    (destination : AccountId) : Prop :=
  (∀ w', execTransfer source object destination w = .ok w' →
    balance w' source + balance w' ⟨source.definition, destination⟩
      = balance w source + balance w ⟨source.definition, destination⟩ ∧
    w'.assetDefinitions = w.assetDefinitions ∧
    (destination = source.account → balance w' source = balance w source)) ∧
  (∀ m, execTransfer source object destination (w.setMintable source.definition m)
      = (execTransfer source object destination w).map
          (fun u => u.setMintable source.definition m)) ∧
  (∀ v, alookup source w.assets = some v → v.toRat < object.toRat →
    execTransfer source object destination w = .error (.math .notEnoughQuantity))

/-- C4: a successful Transfer conserves balance(source) + balance(destination)
and leaves every stored asset definition (hence total_quantity) untouched; it
never consults mintability; the source is debited before the destination is
credited, so a self-transfer with sufficient balance leaves the balance
unchanged; and a transfer of more than the stored source value fails with
NotEnoughQuantity. -/
theorem c4_transfer (w : World) (source : AssetId) (object : Numeric)
    (destination : AccountId) (dfn : AssetDefinition)
    (hn : NodupKeys w.assets)
    (hd : alookup source.definition w.assetDefinitions = some dfn)
    (hspec : dfn.spec.check object = true) :
    TransferSpec w source object destination := by
  refine ⟨?_, fun m => execTransfer_setMintable w source object destination m, ?_⟩
  · intro w' h
    obtain ⟨d, v, q, w2, dv, dq, hd2, hspec2, hv, hq, hoi, hdq, hw'⟩ := execTransfer_ok h
    obtain ⟨hacct2, hdef2, hdefs2, _, _, _, _, hcase⟩ := asset_or_insert_ok hoi
    simp only at hacct2 hdef2 hdefs2 hcase
    have hFa : w'.assets = aupd (⟨source.definition, destination⟩ : AssetId) dq w2.assets := by
      rw [hw']
      rfl
    have hFdefs : w'.assetDefinitions = w2.assetDefinitions := by
      rw [hw']
      rfl
    have hvdst : alookup (⟨source.definition, destination⟩ : AssetId) w2.assets = some dv := by
      rcases hcase with ⟨hvd, hassets⟩ | ⟨_, hvd, hassets⟩
      · rw [hassets]; exact hvd
      · subst hvd; rw [hassets, alookup_cons, if_pos rfl]
    have hqv : q.toRat = v.toRat - object.toRat := Numeric.checked_sub_toRat hq
    have hdqv : dq.toRat = dv.toRat + object.toRat := Numeric.checked_add_toRat hdq
    have hbsrcw : balance w source = v.toRat := balance_eq_of_lookup hv
    have hmain : (balance w' source + balance w' ⟨source.definition, destination⟩
        = balance w source + balance w ⟨source.definition, destination⟩) ∧
        (destination = source.account → balance w' source = balance w source) := by
      by_cases hself : (⟨source.definition, destination⟩ : AssetId) = source
      · have hbal' : balance w' source = dq.toRat := by
          apply balance_eq_of_lookup
          rw [hFa, ← hself]
          exact alookup_aupd_self dq (by rw [hvdst]; rfl)
        have hdvv : dq.toRat = v.toRat := by
          rcases hcase with ⟨hvd, _⟩ | ⟨hnone, hvd, _⟩
          · rw [hself] at hvd
            rw [debit_alookup_self hn hv] at hvd
            by_cases hz : q.is_zero
            · rw [if_pos hz] at hvd
              simp at hvd
            · rw [if_neg hz, Option.some.injEq] at hvd
              subst hvd
              rw [hdqv, hqv]
              ring
          · rw [hself, debit_alookup_self hn hv] at hnone
            by_cases hz : q.is_zero
            · have hq0 : q.toRat = 0 := (Numeric.is_zero_iff q).mp hz
              subst hvd
              rw [hdqv, Numeric.toRat_ZERO]
              linarith
            · rw [if_neg hz] at hnone
              simp at hnone
        constructor
        · rw [hself, hbal', hbsrcw, hdvv]
        · intro _
          rw [hbal', hbsrcw, hdvv]
      · have hbal'src : balance w' source = q.toRat := by
          have hlk : alookup source w'.assets = if q.is_zero then none else some q := by
            rw [hFa, alookup_aupd_ne (fun hc => hself hc.symm)]
            rcases hcase with ⟨_, hassets⟩ | ⟨_, hvd, hassets⟩
            · rw [hassets]
              exact debit_alookup_self hn hv
            · rw [hassets, alookup_cons, if_neg hself]
              exact debit_alookup_self hn hv
          by_cases hz : q.is_zero
          · rw [if_pos hz] at hlk
            rw [balance_eq_zero_of_none hlk, (Numeric.is_zero_iff q).mp hz]
          · rw [if_neg hz] at hlk
            exact balance_eq_of_lookup hlk
        have hbal'dst : balance w' (⟨source.definition, destination⟩ : AssetId) = dq.toRat := by
          apply balance_eq_of_lookup
          rw [hFa]
          exact alookup_aupd_self dq (by rw [hvdst]; rfl)
        have hbwdst : balance w (⟨source.definition, destination⟩ : AssetId) = dv.toRat := by
          rcases hcase with ⟨hvd, _⟩ | ⟨hnone, hvd, _⟩
          · rw [debit_alookup_ne hself] at hvd
            exact balance_eq_of_lookup hvd
          · rw [debit_alookup_ne hself] at hnone
            subst hvd
            rw [balance_eq_zero_of_none hnone, Numeric.toRat_ZERO]
        constructor
        · rw [hbal'src, hbal'dst, hbsrcw, hbwdst, hqv, hdqv]
          ring
        · intro hdst
          exfalso
          apply hself
          rw [hdst]
    exact ⟨hmain.1, by rw [hFdefs]; exact hdefs2, hmain.2⟩
  · intro v hv hlt
    unfold execTransfer
    rw [asset_definition_eval hd]
    simp only [assert_numeric_spec_eval hspec, hv,
      (Numeric.checked_sub_eq_none_iff v object).mpr hlt]

/-- The asset definition of the C4 witness. -/
def c4Def : AssetDefinition :=
  { id := "rose", spec := .unconstrained, mintable := .infinitely, logo := none,
    metadata := [], ownedBy := "alice", totalQuantity := ⟨5, 0⟩ }

/-- The world of the C4 witness: alice holds five roses. -/
def c4World : World :=
  { domains := [], accounts := ["alice", "bob"],
    assetDefinitions := [("rose", c4Def)],
    assets := [(⟨"rose", "alice"⟩, ⟨5, 0⟩)], nfts := [], events := [] }

theorem c4_transfer_witness :
    NodupKeys c4World.assets ∧
    alookup (AssetId.definition ⟨"rose", "alice"⟩) c4World.assetDefinitions = some c4Def ∧
    c4Def.spec.check ⟨2, 0⟩ = true ∧
    TransferSpec c4World ⟨"rose", "alice"⟩ ⟨2, 0⟩ "bob" :=
  ⟨by simp [NodupKeys, c4World], rfl, rfl,
   c4_transfer c4World ⟨"rose", "alice"⟩ ⟨2, 0⟩ "bob" c4Def
     (by simp [NodupKeys, c4World]) rfl rfl⟩

/-- The behaviour claimed for Burn error handling: NotFound when the row is
absent, NotEnoughQuantity (with no state change, by rollback) when the
stored value is smaller than the burned amount, and removal of the row when
the remaining value is exactly zero. -/
def BurnSpec (w : World) (object : Numeric) (destination : AssetId) : Prop :=
  (alookup destination w.assets = none →
    execBurn object destination w = .error (.find (.asset destination))) ∧
  (∀ v, alookup destination w.assets = some v → v.toRat < object.toRat →
    execBurn object destination w = .error (.math .notEnoughQuantity)) ∧
  (∀ v w', alookup destination w.assets = some v →
    execBurn object destination w = .ok w' → v.toRat = object.toRat →
    alookup destination w'.assets = none)

/-- C6: Burn on an absent row fails with NotFound; on a row smaller than the
burned amount it fails with NotEnoughQuantity (the instruction rolls back,
leaving the row unchanged); and when it succeeds with a resulting value of
zero, the row is removed from the assets map. -/
theorem c6_burn (w : World) (object : Numeric) (destination : AssetId)
    (dfn : AssetDefinition) (hn : NodupKeys w.assets)
    (hd : alookup destination.definition w.assetDefinitions = some dfn)
    (hspec : dfn.spec.check object = true) :
    BurnSpec w object destination := by
  refine ⟨?_, ?_, ?_⟩
  · intro hnone
    unfold execBurn
    rw [asset_definition_eval hd]
    simp only [assert_numeric_spec_eval hspec, hnone]
  · intro v hv hlt
    unfold execBurn
    rw [asset_definition_eval hd]
    simp only [assert_numeric_spec_eval hspec, hv,
      (Numeric.checked_sub_eq_none_iff v object).mpr hlt]
  · intro v w' hv hok heq
    obtain ⟨d, v2, q, w2, hd2, hspec2, hv2, hq, hdec, hw'⟩ := execBurn_ok hok
    have hvv : v2 = v := by
      rw [hv] at hv2
      exact ((Option.some.injEq _ _).mp hv2).symm
    subst hvv
    have hz : q.is_zero = true := (Numeric.checked_sub_is_zero_iff hq).mpr heq
    obtain ⟨dd, t, _, _, hw2⟩ := decrease_total_ok hdec
    have hwa : w'.assets = aerase destination (aupd destination q w.assets) := by
      rw [hw', hw2]
      show (if q.is_zero then aerase destination (aupd destination q w.assets) else aupd destination q w.assets) = _
      rw [if_pos hz]
    rw [hwa]
    exact alookup_aerase_self (hn.aupd destination q)

/-- The world of the C6 witness: alice holds three roses. -/
def c6World : World :=
  { domains := [], accounts := ["alice"],
    assetDefinitions := [("rose", c4Def)],
    assets := [(⟨"rose", "alice"⟩, ⟨3, 0⟩)], nfts := [], events := [] }

theorem c6_burn_witness :
    NodupKeys c6World.assets ∧
    alookup (AssetId.definition ⟨"rose", "alice"⟩) c6World.assetDefinitions = some c4Def ∧
    c4Def.spec.check ⟨3, 0⟩ = true ∧
    BurnSpec c6World ⟨3, 0⟩ ⟨"rose", "alice"⟩ :=
  ⟨by simp [NodupKeys, c6World], rfl, rfl,
   c6_burn c6World ⟨3, 0⟩ ⟨"rose", "alice"⟩ c4Def
     (by simp [NodupKeys, c6World]) rfl rfl⟩

/-- The behaviour claimed for NFT transfer: NotFound when either account or
the NFT is absent, InvariantViolation (distinct from NotFound) when the
stored owner differs from the source (the NFT left unchanged by rollback),
and otherwise an owner update plus an OwnerChanged event. -/
def NftTransferSpec (w : World) (source : AccountId) (object : NftId)
    (destination : AccountId) : Prop :=
  (source ∉ w.accounts →
    execTransferNft source object destination w = .error (.find (.account source))) ∧
  (source ∈ w.accounts → destination ∉ w.accounts →
    execTransferNft source object destination w = .error (.find (.account destination))) ∧
  (source ∈ w.accounts → destination ∈ w.accounts → alookup object w.nfts = none →
    execTransferNft source object destination w = .error (.find (.nft object))) ∧
  (∀ nft, source ∈ w.accounts → destination ∈ w.accounts →
    alookup object w.nfts = some nft → nft.ownedBy ≠ source →
    execTransferNft source object destination w
      = .error (.invariantViolation "source account does not own the NFT")) ∧
  (∀ nft, source ∈ w.accounts → destination ∈ w.accounts →
    alookup object w.nfts = some nft → nft.ownedBy = source →
    ∃ w', execTransferNft source object destination w = .ok w' ∧
      alookup object w'.nfts = some { nft with ownedBy := destination } ∧
      Event.nftOwnerChanged object destination ∈ w'.events)

/-- C5: NFT transfer first requires both accounts and the NFT to exist
(absence gives NotFound); a stored owner different from the source account
gives InvariantViolation, not NotFound, and the failed instruction rolls
back; otherwise owned_by is set to the destination account and
NftEvent::OwnerChanged is emitted. -/
theorem c5_nft_transfer (w : World) (source : AccountId) (object : NftId)
    (destination : AccountId) : NftTransferSpec w source object destination := by
  refine ⟨?_, ?_, ?_, ?_, ?_⟩
  · intro hs
    unfold execTransferNft
    rw [if_neg hs]
  · intro hs hd
    unfold execTransferNft
    rw [if_pos hs, if_neg hd]
  · intro hs hd hnone
    unfold execTransferNft
    rw [if_pos hs, if_pos hd]
    simp only [hnone]
  · intro nft hs hd hnft hown
    unfold execTransferNft
    rw [if_pos hs, if_pos hd]
    simp only [hnft]
    rw [if_neg hown]
  · intro nft hs hd hnft hown
    unfold execTransferNft
    rw [if_pos hs, if_pos hd]
    simp only [hnft]
    rw [if_pos hown]
    refine ⟨_, rfl, ?_, ?_⟩
    · show alookup object (aupd object { nft with ownedBy := destination } w.nfts) = _
      exact alookup_aupd_self _ (by rw [hnft]; rfl)
    · show Event.nftOwnerChanged object destination ∈ w.events ++ [Event.nftOwnerChanged object destination]
      exact List.mem_append_right _ (List.mem_singleton.mpr rfl)

/-- The world of the C5 witness: one NFT owned by alice. -/
def c5World : World :=
  { domains := ["wonderland"], accounts := ["alice", "bob"],
    assetDefinitions := [], assets := [],
    nfts := [(⟨"wonderland", "nft"⟩, { id := ⟨"wonderland", "nft"⟩, content := [], ownedBy := "alice" })],
    events := [] }

theorem c5_nft_transfer_witness :
    "alice" ∈ c5World.accounts ∧
    NftTransferSpec c5World "alice" ⟨"wonderland", "nft"⟩ "bob" :=
  ⟨by simp [c5World],
   c5_nft_transfer c5World "alice" ⟨"wonderland", "nft"⟩ "bob"⟩

/-- C7: Register of an NFT whose id already exists fails with
RepetitionError for Register of that id, and the committed state (rollback
on error) still holds the original record, its content included. -/
theorem c7_nft_double_register (w : World) (id : NftId) (content : Metadata)
    (authority : AccountId) (nft : Nft) (h : alookup id w.nfts = some nft) :
    execRegisterNft ⟨id, content⟩ authority w
      = .err (.repetition .register (.nftId id)) ∧
    alookup id ((execRegisterNft ⟨id, content⟩ authority w).state w).nfts = some nft ∧
    ((execRegisterNft ⟨id, content⟩ authority w).state w).nfts = w.nfts := by
  have herr : execRegisterNft ⟨id, content⟩ authority w
      = .err (.repetition .register (.nftId id)) := by
    unfold execRegisterNft
    rw [if_pos (by show (alookup id w.nfts).isSome = true; rw [h]; rfl)]
  rw [herr]
  exact ⟨rfl, h, rfl⟩

/-- The world of the C7 witness: test_nft is registered with content key 1. -/
def c7World : World :=
  { domains := ["wonderland"], accounts := ["alice"],
    assetDefinitions := [], assets := [],
    nfts := [(⟨"wonderland", "test_nft"⟩, { id := ⟨"wonderland", "test_nft"⟩, content := [("key", "1")], ownedBy := "alice" })],
    events := [] }

theorem c7_nft_double_register_witness :
    alookup (⟨"wonderland", "test_nft"⟩ : NftId) c7World.nfts
      = some { id := ⟨"wonderland", "test_nft"⟩, content := [("key", "1")], ownedBy := "alice" } ∧
    (execRegisterNft ⟨⟨"wonderland", "test_nft"⟩, [("key", "1")]⟩ "alice" c7World
      = .err (.repetition .register (.nftId ⟨"wonderland", "test_nft"⟩)) ∧
    alookup (⟨"wonderland", "test_nft"⟩ : NftId) ((execRegisterNft ⟨⟨"wonderland", "test_nft"⟩, [("key", "1")]⟩ "alice" c7World).state c7World).nfts
      = some { id := ⟨"wonderland", "test_nft"⟩, content := [("key", "1")], ownedBy := "alice" } ∧
    ((execRegisterNft ⟨⟨"wonderland", "test_nft"⟩, [("key", "1")]⟩ "alice" c7World).state c7World).nfts = c7World.nfts) :=
  ⟨rfl, c7_nft_double_register c7World ⟨"wonderland", "test_nft"⟩ [("key", "1")] "alice" _ rfl⟩

/-- C10: with the NFT domain present in the world, Register and Unregister
of an NFT never panic; without it, Register of a fresh id and Unregister of
an existing NFT hit the expect on the domain lookup and panic instead of
returning an error. -/
theorem c10_nft_domain_panics :
    (∀ (w : World) (nn : NewNft) (authority : AccountId),
      nn.id.domain ∈ w.domains → (execRegisterNft nn authority w).isPanicked = false) ∧
    (∀ (w : World) (id : NftId),
      id.domain ∈ w.domains → (execUnregisterNft id w).isPanicked = false) ∧
    (∀ (w : World) (nn : NewNft) (authority : AccountId),
      alookup nn.id w.nfts = none → nn.id.domain ∉ w.domains →
      (execRegisterNft nn authority w).isPanicked = true) ∧
    (∀ (w : World) (id : NftId) (nft : Nft),
      alookup id w.nfts = some nft → id.domain ∉ w.domains →
      (execUnregisterNft id w).isPanicked = true) := by
  refine ⟨?_, ?_, ?_, ?_⟩
  · intro w nn authority hdom
    unfold execRegisterNft
    by_cases hr : (alookup nn.id w.nfts).isSome = true
    · rw [if_pos hr]
      rfl
    · rw [if_neg hr, if_pos hdom]
      rfl
  · intro w id hdom
    unfold execUnregisterNft
    cases hr : alookup id w.nfts
    · rfl
    · rw [if_pos hdom]
      rfl
  · intro w nn authority hfresh hdom
    unfold execRegisterNft
    rw [if_neg (by rw [hfresh]; simp), if_neg hdom]
    rfl
  · intro w id nft hnft hdom
    unfold execUnregisterNft
    rw [hnft]
    show (if id.domain ∈ w.domains then RunResult.ok _ else RunResult.panicked _).isPanicked = true
    rw [if_neg hdom]
    rfl

/-- The world of the C10 witness: an NFT stored while its domain is absent
(for the panic cases), and a fresh id in an absent domain. -/
def c10World : World :=
  { domains := [], accounts := [], assetDefinitions := [], assets := [],
    nfts := [(⟨"wonderland", "old"⟩, { id := ⟨"wonderland", "old"⟩, content := [], ownedBy := "alice" })],
    events := [] }

theorem c10_nft_domain_panics_witness :
    ((⟨"wonderland", "nft"⟩ : NftId).domain ∈ c5World.domains ∧
      (execRegisterNft ⟨⟨"wonderland", "nft2"⟩, []⟩ "alice" c5World).isPanicked = false) ∧
    (alookup (⟨"w2", "fresh"⟩ : NftId) c10World.nfts = none ∧
      (execRegisterNft ⟨⟨"w2", "fresh"⟩, []⟩ "alice" c10World).isPanicked = true) ∧
    (alookup (⟨"wonderland", "old"⟩ : NftId) c10World.nfts
        = some { id := ⟨"wonderland", "old"⟩, content := [], ownedBy := "alice" } ∧
      (execUnregisterNft ⟨"wonderland", "old"⟩ c10World).isPanicked = true) := by
  refine ⟨⟨by simp [c5World], ?_⟩, ⟨rfl, ?_⟩, ⟨rfl, ?_⟩⟩
  · exact c10_nft_domain_panics.1 c5World ⟨⟨"wonderland", "nft2"⟩, []⟩ "alice" (by simp [c5World])
  · exact c10_nft_domain_panics.2.2.1 c10World ⟨⟨"w2", "fresh"⟩, []⟩ "alice" rfl (by simp [c10World])
  · exact c10_nft_domain_panics.2.2.2 c10World ⟨"wonderland", "old"⟩ _ rfl (by simp [c10World])

lemma rsplitOnce_eq_none {c : Char} {l : List Char} (h : c ∉ l) :
    rsplitOnce c l = none := by
  induction l with
  | nil => rfl
  | cons x xs ih =>
    simp only [List.mem_cons, not_or] at h
    unfold rsplitOnce
    rw [ih h.2, if_neg (fun hc => h.1 hc.symm)]

lemma rsplitOnce_append {c : Char} (a b : List Char) (hb : c ∉ b) :
    rsplitOnce c (a ++ c :: b) = some (a, b) := by
  induction a with
  | nil =>
    show rsplitOnce c (c :: b) = some ([], b)
    unfold rsplitOnce
    rw [rsplitOnce_eq_none hb, if_pos rfl]
  | cons x xs ih =>
    show rsplitOnce c (x :: (xs ++ c :: b)) = some (x :: xs, b)
    unfold rsplitOnce
    rw [ih]

/-- The behaviour claimed for NftId parsing: strings without a dollar sign
are rejected, the split happens at the last dollar sign, empty name and
domain parts are rejected, and everything else parses to the pair. -/
def NftIdParseSpec : Prop :=
  (∀ s : List Char, '$' ∉ s →
    NftId.fromStr ⟨s⟩ = .error ⟨"Non Fungible Asset ID should have format `name$domain`"⟩) ∧
  (∀ a b : List Char, '$' ∉ b → a ≠ [] → b ≠ [] →
    NftId.fromStr ⟨a ++ '$' :: b⟩ = .ok ⟨⟨b⟩, ⟨a⟩⟩) ∧
  (∀ b : List Char, '$' ∉ b →
    NftId.fromStr ⟨'$' :: b⟩ = .error ⟨"Empty `name` part in `name$domain`"⟩) ∧
  (∀ a : List Char, a ≠ [] →
    NftId.fromStr ⟨a ++ ['$']⟩ = .error ⟨"Empty `domain` part in `name$domain`"⟩)

/-- C8: parsing a string as an NftId succeeds exactly for name$domain with
both components non-empty, splitting at the last dollar sign; a string with
no dollar sign, an empty name part, or an empty domain part is rejected
with a ParseError. -/
theorem c8_nftid_parse : NftIdParseSpec := by
  refine ⟨?_, ?_, ?_, ?_⟩
  · intro s h
    unfold NftId.fromStr
    have hdata : (⟨s⟩ : String).data = s := rfl
    rw [hdata, rsplitOnce_eq_none h]
  · intro a b hb ha hbne
    cases a with
    | nil => exact absurd rfl ha
    | cons x xs =>
      cases b with
      | nil => exact absurd rfl hbne
      | cons y ys =>
        unfold NftId.fromStr
        have hdata : (⟨(x :: xs) ++ '$' :: y :: ys⟩ : String).data = (x :: xs) ++ '$' :: y :: ys := rfl
        rw [hdata, rsplitOnce_append _ _ hb]
        rfl
  · intro b hb
    unfold NftId.fromStr
    have hdata : (⟨'$' :: b⟩ : String).data = ([] : List Char) ++ '$' :: b := rfl
    rw [hdata, rsplitOnce_append _ _ hb]
    cases b <;> rfl
  · intro a ha
    cases a with
    | nil => exact absurd rfl ha
    | cons x xs =>
      unfold NftId.fromStr
      have hdata : (⟨(x :: xs) ++ ['$']⟩ : String).data = (x :: xs) ++ '$' :: ([] : List Char) := rfl
      rw [hdata, rsplitOnce_append _ _ (by simp)]

theorem c8_nftid_parse_witness :
    ('$' ∉ ("wonderland".data : List Char)) ∧
    NftId.fromStr ⟨"nft".data ++ '$' :: "wonderland".data⟩ = .ok ⟨⟨"wonderland".data⟩, ⟨"nft".data⟩⟩ ∧
    NftId.fromStr "no_dollar_here" = .error ⟨"Non Fungible Asset ID should have format `name$domain`"⟩ ∧
    NftId.fromStr "$wonderland" = .error ⟨"Empty `name` part in `name$domain`"⟩ ∧
    NftId.fromStr "nft$" = .error ⟨"Empty `domain` part in `name$domain`"⟩ := by
  refine ⟨by decide, ?_, ?_, ?_, ?_⟩
  · exact c8_nftid_parse.2.1 "nft".data "wonderland".data (by decide) (by decide) (by decide)
  · exact c8_nftid_parse.1 "no_dollar_here".data (by decide)
  · exact c8_nftid_parse.2.2.1 "wonderland".data (by decide)
  · exact c8_nftid_parse.2.2.2 "nft".data (by decide)

/-- C9: the kura inspector maps the 1-based height to the 0-based index
(height 0 rejected, height h starting at h - 1) and intends to clamp the
start and length to the stored blocks; but the sum from_height + block_count
is 64-bit machine arithmetic, so a length that makes it wrap skips the
truncation promised by the CLI doc comment: on a two-block store, from
height 2 with length 2^64 - 1 the clamp leaves the length untouched even
though only one block remains. -/
theorem c9_kura_height_wrap :
    kuraFromHeight 0 = .error "The genesis block has the height 1; the from height must not be 0" ∧
    kuraFromHeight 2 = .ok 1 ∧
    kuraClamp 2 1 (2 ^ 64 - 1) = .ok (1, 2 ^ 64 - 1) ∧
    ¬ (1 + (2 ^ 64 - 1) ≤ 2) := by
  refine ⟨rfl, rfl, ?_, by decide⟩
  unfold kuraClamp u64Mod
  norm_num
